import Mathlib

/-!
# Verification of the PhoneDetection-Classroom core

Shallow embedding of the session-tracking detector (`detector.py`) and of the
material classifier with cross-frame glare memory (`src/camera.py`,
`src/filters.py`), together with proofs of the specified properties.

Modelling conventions:
* box coordinates are integers (the code does `map(int, box.xyxy[0])`);
* times, durations, IoU scores and ratios are rationals, standing for the
  exact real values of the Python float computations;
* the Euclidean centroid-distance gate `dist > 80` is modelled by the
  equivalent comparison of squares `dist^2 > 6400` (both sides nonnegative),
  which keeps everything inside ℚ;
* Python dicts (`active_sessions`, `track_history`), which iterate in
  insertion order, are modelled as association lists in insertion order.
-/

namespace PhoneDetection

/-- Axis-aligned box `(x1, y1, x2, y2)`, integer pixel coordinates. -/
structure Box where
  x1 : Int
  y1 : Int
  x2 : Int
  y2 : Int
deriving DecidableEq, Repr

/-- Function `iou` from detector.py: intersection-over-union of two boxes, with the
`denom == 0` guard returning `0.0`. -/
def iou (boxA boxB : Box) : ℚ :=
  let xA := max boxA.x1 boxB.x1
  let yA := max boxA.y1 boxB.y1
  let xB := min boxA.x2 boxB.x2
  let yB := min boxA.y2 boxB.y2
  let interW := max 0 (xB - xA)
  let interH := max 0 (yB - yA)
  let interArea := interW * interH
  let boxAArea := (boxA.x2 - boxA.x1) * (boxA.y2 - boxA.y1)
  let boxBArea := (boxB.x2 - boxB.x1) * (boxB.y2 - boxB.y1)
  let denom := boxAArea + boxBArea - interArea
  if denom = 0 then 0 else (interArea : ℚ) / (denom : ℚ)

/-- Helper `box_area` inside `_match_boxes_to_sessions`: area clamped below by 1
("avoid zero"). -/
def box_area (b : Box) : Int := max 1 ((b.x2 - b.x1) * (b.y2 - b.y1))

/-- Helper `box_center` inside `_match_boxes_to_sessions`. -/
def box_center (b : Box) : ℚ × ℚ :=
  (((b.x1 + b.x2 : Int) : ℚ) / 2, ((b.y1 + b.y2 : Int) : ℚ) / 2)

/-- Relative area change `abs(new_area - old_area) / old_area` (areas from
`box_area`, so the denominator is ≥ 1). -/
def size_change (newBox oldBox : Box) : ℚ :=
  |((box_area newBox : ℚ)) - ((box_area oldBox : ℚ))| / ((box_area oldBox : ℚ))

/-- Square of the Euclidean distance between the two box centers.  The source
computes `dist = np.linalg.norm(new_center - old_center)` and gates on
`dist > 80`; we gate on `distSq > 6400`, which is equivalent. -/
def center_dist_sq (newBox oldBox : Box) : ℚ :=
  let c := box_center newBox
  let d := box_center oldBox
  (c.1 - d.1) ^ 2 + (c.2 - d.2) ^ 2

/-- One session record (`session_info` dict in detector.py; the redundant
`'id'` field stored inside the dict duplicates the key and is omitted). -/
structure Session where
  box : Box
  start_ts : ℚ
  last_seen_ts : ℚ
  accumulated : ℚ
  alert_sent : Bool
deriving DecidableEq, Repr

/-- The three eligibility gates of `_match_boxes_to_sessions` (RULE 1-3):
a session candidate survives iff IoU ≥ 0.30, relative area change ≤ 0.40 and
centroid distance ≤ 80. -/
def Eligible (d : Box) (s : Session) : Prop :=
  (3 / 10 : ℚ) ≤ iou d s.box ∧ size_change d s.box ≤ (2 / 5 : ℚ) ∧
    center_dist_sq d s.box ≤ 6400

instance (d : Box) (s : Session) : Decidable (Eligible d s) :=
  show Decidable ((3 / 10 : ℚ) ≤ iou d s.box ∧ size_change d s.box ≤ (2 / 5 : ℚ) ∧
    center_dist_sq d s.box ≤ 6400) from inferInstance

/-- Body of the inner loop of `_match_boxes_to_sessions`: one session
candidate `p` is examined against the running best `(best_sid, best_score)`.
Candidates already in `used_sessions` are skipped, then the three RULE gates
run, then the best is replaced when `iou_val > best_score`. -/
def matchStep (used : List Nat) (d : Box) (acc : Option Nat × ℚ) (p : Nat × Session) :
    Option Nat × ℚ :=
  if p.1 ∈ used then acc
  else if iou d p.2.box < 3 / 10 then acc
  else if size_change d p.2.box > 2 / 5 then acc
  else if center_dist_sq d p.2.box > 6400 then acc
  else if iou d p.2.box > acc.2 then (some p.1, iou d p.2.box) else acc

/-- Inner loop over all open sessions for one detection, starting from
`best_sid = None`, `best_score = 0`. -/
def bestMatch (sessions : List (Nat × Session)) (used : List Nat) (d : Box) :
    Option Nat × ℚ :=
  sessions.foldl (matchStep used d) (none, 0)

/-- Outer loop of `_match_boxes_to_sessions`: detections processed in input
order; a chosen session id is added to `used_sessions`. -/
def matchBoxesAux (sessions : List (Nat × Session)) :
    List Box → List Nat → List (Option Nat)
  | [], _ => []
  | d :: ds, used =>
    match (bestMatch sessions used d).1 with
    | some sid => some sid :: matchBoxesAux sessions ds (sid :: used)
    | none => none :: matchBoxesAux sessions ds used

/-- Method `PhoneDetector._match_boxes_to_sessions`: mapping from detection index to
`Option` session id, represented positionally. -/
def matchBoxesToSessions (sessions : List (Nat × Session)) (dets : List Box) :
    List (Option Nat) :=
  matchBoxesAux sessions dets []

/-! ## Association lists (model of Python dicts, insertion-ordered) -/

/-- First-match association-list lookup (`d[k]` / `d.get(k)`). -/
def alookup {α β : Type} [DecidableEq α] : List (α × β) → α → Option β
  | [], _ => none
  | p :: l, k => if p.1 = k then some p.2 else alookup l k

/-- In-place value update of an existing key (`d[k] = v` for a present key):
every entry carrying `k` gets the new value, positions unchanged. -/
def setEntry {α β : Type} [DecidableEq α] (l : List (α × β)) (k : α) (v : β) :
    List (α × β) :=
  l.map fun p => if p.1 = k then (k, v) else p

/-! ## Detector state, events and the per-frame step (`PhoneDetector.detect`) -/

/-- Audit-log events written by `_log_event` (payload fields that matter to
the spec; `duration_seconds` is the Python `int(...)` truncation). -/
inductive Event where
  | usage_start (session_id : Nat) (box : Box)
  | usage_end (session_id : Nat) (duration_seconds : Int) (alert_triggered : Bool)
  | alert_triggered (session_id : Nat) (duration_seconds : Int)
deriving DecidableEq, Repr

/-- Python `int(q)` on a float: truncation toward zero. -/
def pyInt (q : ℚ) : Int := if q < 0 then ⌈q⌉ else ⌊q⌋

/-- Construction-time configuration of `PhoneDetector.__init__`. -/
structure Config where
  gap_tolerance_sec : ℚ
  alert_threshold_sec : ℚ
deriving DecidableEq, Repr

/-- Defaults: `gap_tolerance_sec=0.1`, `alert_threshold_sec=15*60`. -/
def defaultConfig : Config := { gap_tolerance_sec := 1 / 10, alert_threshold_sec := 15 * 60 }

/-- Mutable tracking state of a `PhoneDetector`. -/
structure DetectorState where
  active_sessions : List (Nat × Session)
  next_session_id : Nat
deriving DecidableEq, Repr

/-- State right after `__init__`: no sessions, `next_session_id = 1`. -/
def initState : DetectorState := { active_sessions := [], next_session_id := 1 }

/-- Accumulator for the per-detection loop of `detect` (sessions dict,
`next_session_id`, `seen_session_ids`, and the log lines written so far). -/
structure FrameAcc where
  sessions : List (Nat × Session)
  nextId : Nat
  seen : List Nat
  events : List Event
deriving DecidableEq, Repr

/-- Fresh session record created for an unmatched detection
(`start_ts = last_seen_ts = now`, `accumulated = 0.0`, `alert_sent = False`). -/
def newSession (now : ℚ) (b : Box) : Session :=
  { box := b, start_ts := now, last_seen_ts := now, accumulated := 0, alert_sent := false }

/-- Update of a matched session: `box` := detection box; `accumulated` grows
by `elapsed_gap = now - last_seen_ts` only when `elapsed_gap ≤
gap_tolerance_sec`; `last_seen_ts := now` unconditionally. -/
def updateMatched (cfg : Config) (now : ℚ) (b : Box) (s : Session) : Session :=
  let elapsed_gap := now - s.last_seen_ts
  { s with
    box := b
    accumulated :=
      if elapsed_gap ≤ cfg.gap_tolerance_sec then s.accumulated + elapsed_gap
      else s.accumulated
    last_seen_ts := now }

/-- One iteration of the `for i, det in enumerate(phone_boxes)` loop, applied
to the detection box paired with its mapping entry.  A matched id updates the
stored session in place and is added to `seen_session_ids`; an unmatched
detection creates a fresh session and logs `usage_start`.  (The `none` inner
branch is unreachable: the mapping only ever returns ids of open sessions.) -/
def processDet (cfg : Config) (now : ℚ) (acc : FrameAcc) (dm : Box × Option Nat) :
    FrameAcc :=
  match dm.2 with
  | some sid =>
    match alookup acc.sessions sid with
    | some s =>
      { acc with
        sessions := setEntry acc.sessions sid (updateMatched cfg now dm.1 s)
        seen := sid :: acc.seen }
    | none => acc
  | none =>
    { sessions := acc.sessions ++ [(acc.nextId, newSession now dm.1)]
      nextId := acc.nextId + 1
      seen := acc.nextId :: acc.seen
      events := acc.events ++ [Event.usage_start acc.nextId dm.1] }

/-- The whole per-detection loop. -/
def processDets (cfg : Config) (now : ℚ) (pairs : List (Box × Option Nat))
    (acc : FrameAcc) : FrameAcc :=
  pairs.foldl (processDet cfg now) acc

/-- The "sessions not seen this frame" loop: a session with
`gap = now - last_seen_ts > gap_tolerance_sec` is finalized (log `usage_end`
with `int(accumulated)` and the alert flag, then deleted); all other sessions
are kept untouched.  Returns the surviving sessions and the emitted events,
both in iteration order. -/
def finalizePass (cfg : Config) (now : ℚ) (seen : List Nat) :
    List (Nat × Session) → List (Nat × Session) × List Event
  | [] => ([], [])
  | p :: rest =>
    let r := finalizePass cfg now seen rest
    if p.1 ∈ seen then (p :: r.1, r.2)
    else if now - p.2.last_seen_ts > cfg.gap_tolerance_sec then
      (r.1, Event.usage_end p.1 (pyInt p.2.accumulated) p.2.alert_sent :: r.2)
    else (p :: r.1, r.2)

/-- The alert loop ("After updates, check for alerts"): for each surviving
session with `alert_sent` false and `accumulated ≥ alert_threshold_sec`, set
the flag and log `alert_triggered` with `int(accumulated)`.
(`should_consider` is always `True` in the source.) -/
def alertPass (cfg : Config) :
    List (Nat × Session) → List (Nat × Session) × List Event
  | [] => ([], [])
  | (sid, s) :: rest =>
    let r := alertPass cfg rest
    if s.alert_sent = false ∧ cfg.alert_threshold_sec ≤ s.accumulated then
      ((sid, { s with alert_sent := true }) :: r.1,
        Event.alert_triggered sid (pyInt s.accumulated) :: r.2)
    else ((sid, s) :: r.1, r.2)

/-- What the alert loop does to one session record: sets the flag when it is
unset and the accumulated duration has reached the threshold. -/
def alertApply (cfg : Config) (s : Session) : Session :=
  if s.alert_sent = false ∧ cfg.alert_threshold_sec ≤ s.accumulated then
    { s with alert_sent := true }
  else s

/-- Session-lifecycle portion of `detect` (everything before the alert loop):
match detections to sessions, run the per-detection loop, then finalize the
sessions not seen this frame.  Returns the updated state, the set of ids seen
this frame, and the events logged so far (usage starts then usage ends). -/
def lifecycleStep (cfg : Config) (now : ℚ) (st : DetectorState) (dets : List Box) :
    DetectorState × List Nat × List Event :=
  let mapping := matchBoxesToSessions st.active_sessions dets
  let acc := processDets cfg now (dets.zip mapping)
    { sessions := st.active_sessions, nextId := st.next_session_id
      seen := [], events := [] }
  let fin := finalizePass cfg now acc.seen acc.sessions
  ({ active_sessions := fin.1, next_session_id := acc.nextId }, acc.seen,
    acc.events ++ fin.2)

/-- One full frame-processing step of `PhoneDetector.detect` (detection
extraction, drawing and the returned frame are outside the session state):
lifecycle update followed by the alert loop.  Returns the new state and the
audit events of this frame in emission order. -/
def detectStep (cfg : Config) (st : DetectorState) (now : ℚ) (dets : List Box) :
    DetectorState × List Event :=
  let lc := lifecycleStep cfg now st dets
  let al := alertPass cfg lc.1.active_sessions
  ({ active_sessions := al.1, next_session_id := lc.1.next_session_id },
    lc.2.2 ++ al.2)

/-- Reachability of a detector state together with its cumulative audit trail,
along any sequence of frame steps driven by a non-decreasing time source. -/
inductive Traces (cfg : Config) : ℚ → DetectorState → List Event → Prop
  | init (t : ℚ) : Traces cfg t initState []
  | step {t : ℚ} {st : DetectorState} {evs : List Event} (now : ℚ) (dets : List Box) :
      Traces cfg t st evs → t ≤ now →
      Traces cfg now (detectStep cfg st now dets).1 (evs ++ (detectStep cfg st now dets).2)

/-- Session ids carried by the `usage_start` events of a trace, in order. -/
def startIds (evs : List Event) : List Nat :=
  evs.filterMap fun e =>
    match e with
    | Event.usage_start sid _ => some sid
    | _ => none

/-- Number of `alert_triggered` events for a given session id. -/
def alertCount (sid : Nat) (evs : List Event) : Nat :=
  (evs.filter fun e =>
    match e with
    | Event.alert_triggered s _ => s = sid
    | _ => false).length

/-! ## Material classifier with glare memory (`src/camera.py`, `src/filters.py`)

`VideoCamera.get_frame` computes, per detection with region-of-interest
measurements `entropy = calculate_entropy(roi)` and
`glare_score = detect_specular_highlight(roi)[0]`:
`is_shiny_now = glare_score > 0.005`; for a tracked identifier
(`track_id != -1`) it latches `glare_seen` in `track_history`, bumps the
frame counter and takes `is_confirmed_phone` from the latch; without an
identifier it uses the instantaneous flag; finally
`is_likely_calculator = (entropy > 5.5) and not is_confirmed_phone`
("matte/textured"), everything else being "specular/smooth" (phone).
The two measurements abstract the pixel region; degenerate (empty) regions
are skipped by the caller (`if x2 <= x1 or y2 <= y1: continue`) and never
reach this logic. -/

/-- Per-identifier memory record of `track_history`. -/
structure TrackMemory where
  glare_seen : Bool
  frames : Nat
deriving DecidableEq, Repr

/-- The two per-frame measurements of a region of interest. -/
structure Measurements where
  entropy : ℚ
  glare_score : ℚ
deriving DecidableEq, Repr

/-- Insert-or-update of a Python dict entry: an existing key is updated in
place, a new key is appended. -/
def putEntry {α β : Type} [DecidableEq α] (l : List (α × β)) (k : α) (v : β) :
    List (α × β) :=
  if (alookup l k).isSome then setEntry l k v else l ++ [(k, v)]

/-- One per-detection evaluation of the classifier: returns the updated
history, `is_confirmed_phone` and `is_likely_calculator`.  `track_id = -1`
is the "no persistent identifier" sentinel. -/
def classifyStep (hist : List (Int × TrackMemory)) (track_id : Int)
    (m : Measurements) : List (Int × TrackMemory) × Bool × Bool :=
  let is_shiny_now : Bool := decide (m.glare_score > 5 / 1000)
  if track_id ≠ -1 then
    let rec0 := (alookup hist track_id).getD { glare_seen := false, frames := 0 }
    let rec1 := if is_shiny_now then { rec0 with glare_seen := true } else rec0
    let rec2 := { rec1 with frames := rec1.frames + 1 }
    let confirmed := rec2.glare_seen
    (putEntry hist track_id rec2, confirmed,
      decide (m.entropy > 11 / 2) && !confirmed)
  else
    (hist, is_shiny_now, decide (m.entropy > 11 / 2) && !is_shiny_now)

/-- A sequence of classifier evaluations (any identifiers, any measurements),
threading the history. -/
def runClassify (hist : List (Int × TrackMemory)) :
    List (Int × Measurements) → List (Int × TrackMemory)
  | [] => hist
  | (tid, m) :: rest => runClassify (classifyStep hist tid m).1 rest

/-! ## Audit-log writes (`PhoneDetector._log_event`)

`_log_event` opens the JSONL file and appends one line with **no** exception
handling, and `detect` calls it inline at every event emission, also without
any `try`/`except`.  An unavailable log sink therefore raises through
`detect`.  We model sink availability as a boolean and thread the possible
failure with `Except`. -/

inductive AuditError where
  | sinkUnavailable
deriving DecidableEq, Repr

/-- Method `_log_event`: appends one record when the sink is available, raises
otherwise (no handler in the source). -/
def logEvent (sinkOk : Bool) (_e : Event) : Except AuditError Unit :=
  if sinkOk then Except.ok () else Except.error AuditError.sinkUnavailable

/-- The audit writes a frame performs, in emission order; the first failing
write aborts the rest, as an uncaught Python exception does. -/
def writeEvents (sinkOk : Bool) : List Event → Except AuditError Unit
  | [] => Except.ok ()
  | e :: es =>
    match logEvent sinkOk e with
    | Except.error err => Except.error err
    | Except.ok _ => writeEvents sinkOk es

/-- Method `detect` with its audit writes: since no write is guarded, a failed write
propagates out of the per-frame update and the step does not complete. -/
def detectLogged (sinkOk : Bool) (cfg : Config) (st : DetectorState) (now : ℚ)
    (dets : List Box) : Except AuditError (DetectorState × List Event) :=
  match writeEvents sinkOk (detectStep cfg st now dets).2 with
  | Except.error err => Except.error err
  | Except.ok _ => Except.ok (detectStep cfg st now dets)

/-- Predicate: `sid` was already claimed by a detection of index `< i` in the mapping
`m` (positional list of `Option` session ids). -/
def ClaimedBefore (m : List (Option Nat)) (i : Nat) (sid : Nat) : Prop :=
  ∃ j, j < i ∧ m[j]? = some (some sid)

/-- Well-formedness of the detector state: session keys are distinct and all
below `next_session_id` — both hold at `initState` and are preserved by every
frame step. -/
def WF (st : DetectorState) : Prop :=
  (st.active_sessions.map Prod.fst).Nodup ∧
    ∀ p ∈ st.active_sessions, p.1 < st.next_session_id

/-! ## Association-list lemmas -/

section ALookup

variable {α β : Type} [DecidableEq α]

theorem alookup_append_left {l₁ l₂ : List (α × β)} {k : α} {v : β}
    (h : alookup l₁ k = some v) : alookup (l₁ ++ l₂) k = some v := by
  induction l₁ with
  | nil => simp [alookup] at h
  | cons p l ih =>
    simp only [alookup, List.cons_append] at h ⊢
    split at h
    · simpa [*] using h
    · simp only [*, if_neg, ih h]
      split <;> simp_all

theorem alookup_append_right {l₁ l₂ : List (α × β)} {k : α}
    (h : alookup l₁ k = none) : alookup (l₁ ++ l₂) k = alookup l₂ k := by
  induction l₁ with
  | nil => simp [alookup]
  | cons p l ih =>
    simp only [alookup, List.cons_append] at h ⊢
    split at h
    · exact absurd h (by simp)
    · simp only [*, if_neg]
      exact ih h

theorem alookup_setEntry_self (l : List (α × β)) (k : α) (v : β) :
    alookup (setEntry l k v) k = (alookup l k).map fun _ => v := by
  induction l with
  | nil => simp [alookup, setEntry]
  | cons p l ih =>
    by_cases h : p.1 = k <;> simp [alookup, setEntry, h, ih] <;> simp [setEntry] at ih <;>
      exact ih

theorem alookup_setEntry_ne {k' k : α} (l : List (α × β)) (v : β) (h : k' ≠ k) :
    alookup (setEntry l k v) k' = alookup l k' := by
  induction l with
  | nil => simp [alookup, setEntry]
  | cons p l ih =>
    by_cases hp : p.1 = k
    · have : ¬ (k = k') := fun hk => h hk.symm
      simp [alookup, setEntry, hp, this] at ih ⊢
      rw [← hp] at this
      simp [this, ih]
    · simp [alookup, setEntry, hp] at ih ⊢
      split <;> simp [ih]

theorem keys_setEntry (l : List (α × β)) (k : α) (v : β) :
    (setEntry l k v).map Prod.fst = l.map Prod.fst := by
  induction l with
  | nil => simp [setEntry]
  | cons p l ih =>
    simp only [setEntry, List.map_cons] at ih ⊢
    by_cases hp : p.1 = k <;> simp [hp, ih]

theorem mem_setEntry {l : List (α × β)} {p : α × β} {k : α} {v : β}
    (h : p ∈ setEntry l k v) : p ∈ l ∨ p = (k, v) := by
  induction l with
  | nil => simp [setEntry] at h
  | cons q l ih =>
    simp only [setEntry, List.map_cons, List.mem_cons] at h
    rcases h with h | h
    · split at h
      · exact Or.inr h
      · exact Or.inl (by simp [h])
    · rcases ih h with h' | h'
      · exact Or.inl (List.mem_cons_of_mem _ h')
      · exact Or.inr h'

theorem alookup_eq_none {l : List (α × β)} {k : α} :
    alookup l k = none ↔ k ∉ l.map Prod.fst := by
  induction l with
  | nil => simp [alookup]
  | cons p l ih =>
    by_cases hp : p.1 = k
    · simp [alookup, hp]
    · have : ¬ k = p.1 := fun h => hp h.symm
      simp only [alookup, if_neg hp, List.map_cons, List.mem_cons, ih]
      tauto

theorem alookup_mem {l : List (α × β)} {k : α} {v : β}
    (h : alookup l k = some v) : (k, v) ∈ l := by
  induction l with
  | nil => simp [alookup] at h
  | cons p l ih =>
    simp only [alookup] at h
    split at h
    · rcases h with h
      have : p = (k, v) := by
        rcases p with ⟨a, b⟩
        simp_all
      simp [this]
    · exact List.mem_cons_of_mem _ (ih h)

theorem alookup_of_mem_nodup {l : List (α × β)} {k : α} {v : β}
    (hnd : (l.map Prod.fst).Nodup) (h : (k, v) ∈ l) : alookup l k = some v := by
  induction l with
  | nil => simp at h
  | cons p l ih =>
    simp only [List.map_cons, List.nodup_cons] at hnd
    rcases List.mem_cons.1 h with h' | h'
    · simp [alookup, ← h']
    · have hk : p.1 ≠ k := by
        intro hk
        exact hnd.1 (by simpa [hk] using List.mem_map_of_mem Prod.fst h')
      simp [alookup, hk, ih hnd.2 h']

end ALookup

/-! ## Association-engine lemmas -/

/-- Each inner-loop iteration either keeps the running best or replaces it by
an unclaimed, eligible candidate with a strictly larger IoU. -/
theorem matchStep_cases (used : List Nat) (d : Box) (acc : Option Nat × ℚ)
    (p : Nat × Session) :
    matchStep used d acc p = acc ∨
      (p.1 ∉ used ∧ Eligible d p.2 ∧ acc.2 < iou d p.2.box ∧
        matchStep used d acc p = (some p.1, iou d p.2.box)) := by
  unfold matchStep
  split_ifs with h1 h2 h3 h4 h5
  · exact Or.inl rfl
  · exact Or.inl rfl
  · exact Or.inl rfl
  · exact Or.inl rfl
  · exact Or.inr ⟨h1, ⟨le_of_not_lt h2, le_of_not_lt h3, le_of_not_lt h4⟩, h5, rfl⟩
  · exact Or.inl rfl

/-- The running best score never decreases. -/
theorem matchStep_snd_le (used : List Nat) (d : Box) (acc : Option Nat × ℚ)
    (p : Nat × Session) : acc.2 ≤ (matchStep used d acc p).2 := by
  rcases matchStep_cases used d acc p with h | ⟨-, -, hlt, h⟩
  · rw [h]
  · rw [h]
    exact le_of_lt hlt

/-- After examining an unclaimed eligible candidate, the best score is at
least that candidate's IoU. -/
theorem matchStep_ge_of_eligible (used : List Nat) (d : Box) (acc : Option Nat × ℚ)
    (p : Nat × Session) (hu : p.1 ∉ used) (he : Eligible d p.2) :
    iou d p.2.box ≤ (matchStep used d acc p).2 := by
  unfold matchStep
  rcases he with ⟨h1, h2, h3⟩
  rw [if_neg hu, if_neg (not_lt.2 h1), if_neg (not_lt.2 h2), if_neg (not_lt.2 h3)]
  split_ifs with h
  · simp
  · exact le_of_not_lt h

/-- Fold invariant of the inner loop of `_match_boxes_to_sessions`. -/
theorem foldl_matchStep_spec (used : List Nat) (d : Box) :
    ∀ (l : List (Nat × Session)) (acc : Option Nat × ℚ),
      acc.2 ≤ (l.foldl (matchStep used d) acc).2 ∧
      (l.foldl (matchStep used d) acc = acc ∨
        ∃ p ∈ l, p.1 ∉ used ∧ Eligible d p.2 ∧
          l.foldl (matchStep used d) acc = (some p.1, iou d p.2.box)) ∧
      (∀ p ∈ l, p.1 ∉ used → Eligible d p.2 →
        iou d p.2.box ≤ (l.foldl (matchStep used d) acc).2) := by
  intro l
  induction l with
  | nil => intro acc; exact ⟨le_refl _, Or.inl rfl, by simp⟩
  | cons q l ih =>
    intro acc
    have hq := matchStep_cases used d acc q
    obtain ⟨ih1, ih2, ih3⟩ := ih (matchStep used d acc q)
    refine ⟨le_trans (matchStep_snd_le used d acc q) ih1, ?_, ?_⟩
    · rcases ih2 with h | ⟨p, hp, hpu, hpe, hres⟩
      · rcases hq with h' | ⟨hqu, hqe, hlt, h'⟩
        · exact Or.inl (by rw [List.foldl_cons, h, h'])
        · refine Or.inr ⟨q, List.mem_cons_self _ _, hqu, hqe, ?_⟩
          rw [List.foldl_cons, h, h']
      · exact Or.inr ⟨p, List.mem_cons_of_mem _ hp, hpu, hpe, by simpa using hres⟩
    · intro p hp hpu hpe
      rcases List.mem_cons.1 hp with h | h
      · subst h
        exact le_trans (matchStep_ge_of_eligible used d acc p hpu hpe) ih1
      · exact ih3 p h hpu hpe

/-- A successful best match names an unclaimed open session, eligible for the
detection, whose IoU is maximal among unclaimed eligible sessions. -/
theorem bestMatch_some (sessions : List (Nat × Session)) (used : List Nat) (d : Box)
    (sid : Nat) (h : (bestMatch sessions used d).1 = some sid) :
    ∃ s, (sid, s) ∈ sessions ∧ sid ∉ used ∧ Eligible d s ∧
      (bestMatch sessions used d).2 = iou d s.box ∧
      ∀ p ∈ sessions, p.1 ∉ used → Eligible d p.2 → iou d p.2.box ≤ iou d s.box := by
  have hbm : bestMatch sessions used d = sessions.foldl (matchStep used d) (none, 0) := rfl
  obtain ⟨-, h2, h3⟩ := foldl_matchStep_spec used d sessions (none, 0)
  rcases h2 with heq | ⟨p, hp, hpu, hpe, hres⟩
  · rw [hbm, heq] at h
    simp at h
  · rw [hbm, hres] at h
    simp only [Option.some.injEq] at h
    subst h
    refine ⟨p.2, by simpa using hp, hpu, hpe, by rw [hbm, hres], ?_⟩
    intro q hq hqu hqe
    have := h3 q hq hqu hqe
    rw [hres] at this
    simpa using this

/-- A failed best match means no unclaimed open session is eligible. -/
theorem bestMatch_none (sessions : List (Nat × Session)) (used : List Nat) (d : Box)
    (h : (bestMatch sessions used d).1 = none) :
    ∀ p ∈ sessions, p.1 ∉ used → ¬ Eligible d p.2 := by
  intro p hp hpu hpe
  have hbm : bestMatch sessions used d = sessions.foldl (matchStep used d) (none, 0) := rfl
  obtain ⟨-, h2, h3⟩ := foldl_matchStep_spec used d sessions (none, 0)
  have hscore := h3 p hp hpu hpe
  have hzero : (sessions.foldl (matchStep used d) (none, 0)).2 = 0 := by
    rcases h2 with heq | ⟨q, hq, hqu, hqe, hres⟩
    · rw [heq]
    · rw [hbm, hres] at h
      simp at h
  rw [hzero] at hscore
  have h310 : (3 / 10 : ℚ) ≤ iou d p.2.box := hpe.1
  linarith

/-- The mapping has one entry per detection. -/
theorem matchAux_length (sessions : List (Nat × Session)) :
    ∀ (dets : List Box) (used : List Nat),
      (matchBoxesAux sessions dets used).length = dets.length := by
  intro dets
  induction dets with
  | nil => intro used; simp [matchBoxesAux]
  | cons d ds ih =>
    intro used
    rcases hb : (bestMatch sessions used d).1 with _ | sid <;>
      simp [matchBoxesAux, hb, ih]

/-- Every matched session id in a mapping is a key of the open-session list
and is not in the incoming `used` set. -/
theorem matchAux_filterMap (sessions : List (Nat × Session)) :
    ∀ (dets : List Box) (used : List Nat) (sid : Nat),
      sid ∈ (matchBoxesAux sessions dets used).filterMap id →
      sid ∉ used ∧ sid ∈ sessions.map Prod.fst := by
  intro dets
  induction dets with
  | nil => intro used sid h; simp [matchBoxesAux] at h
  | cons d ds ih =>
    intro used sid h
    rcases hb : (bestMatch sessions used d).1 with _ | sid0
    · rw [matchBoxesAux] at h
      rw [hb] at h
      simp only [List.filterMap_cons, id] at h
      exact ih used sid h
    · rw [matchBoxesAux] at h
      rw [hb] at h
      simp only [List.filterMap_cons, id, List.mem_cons] at h
      obtain ⟨s, hmem, hu, -, -, -⟩ := bestMatch_some sessions used d sid0 hb
      rcases h with rfl | h
      · exact ⟨hu, List.mem_map_of_mem Prod.fst hmem⟩
      · have := ih (sid0 :: used) sid h
        exact ⟨fun hc => this.1 (List.mem_cons_of_mem _ hc), this.2⟩

/-- No session id appears twice among the matched entries of one mapping. -/
theorem matchAux_nodup (sessions : List (Nat × Session)) :
    ∀ (dets : List Box) (used : List Nat),
      ((matchBoxesAux sessions dets used).filterMap id).Nodup := by
  intro dets
  induction dets with
  | nil => intro used; simp [matchBoxesAux]
  | cons d ds ih =>
    intro used
    rcases hb : (bestMatch sessions used d).1 with _ | sid0
    · rw [matchBoxesAux]
      rw [hb]
      simpa only [List.filterMap_cons, id] using ih used
    · rw [matchBoxesAux]
      rw [hb]
      simp only [List.filterMap_cons, id, List.nodup_cons]
      refine ⟨fun hc => ?_, ih (sid0 :: used)⟩
      exact (matchAux_filterMap sessions ds (sid0 :: used) sid0 hc).1
        (List.mem_cons_self _ _)

/-- Unfolding equation for `matchBoxesAux` when the best match succeeds. -/
theorem matchAux_cons_some {sessions : List (Nat × Session)} {d0 : Box}
    {ds : List Box} {used : List Nat} {sid0 : Nat}
    (hb : (bestMatch sessions used d0).1 = some sid0) :
    matchBoxesAux sessions (d0 :: ds) used =
      some sid0 :: matchBoxesAux sessions ds (sid0 :: used) := by
  rw [matchBoxesAux]
  rw [hb]

/-- Unfolding equation for `matchBoxesAux` when the best match fails. -/
theorem matchAux_cons_none {sessions : List (Nat × Session)} {d0 : Box}
    {ds : List Box} {used : List Nat}
    (hb : (bestMatch sessions used d0).1 = none) :
    matchBoxesAux sessions (d0 :: ds) used =
      none :: matchBoxesAux sessions ds used := by
  rw [matchBoxesAux]
  rw [hb]

/-- Positional injectivity: the same session id cannot be assigned to two
different detection indices. -/
theorem matchAux_inj (sessions : List (Nat × Session)) :
    ∀ (dets : List Box) (used : List Nat) (i j sid : Nat),
      (matchBoxesAux sessions dets used)[i]? = some (some sid) →
      (matchBoxesAux sessions dets used)[j]? = some (some sid) → i = j := by
  intro dets
  induction dets with
  | nil => intro used i j sid hi hj; simp [matchBoxesAux] at hi
  | cons d ds ih =>
    intro used i j sid hi hj
    rcases hb : (bestMatch sessions used d).1 with _ | sid0
    · rw [matchAux_cons_none hb] at hi hj
      cases i with
      | zero => simp at hi
      | succ i =>
        cases j with
        | zero => simp at hj
        | succ j =>
          simp only [List.getElem?_cons_succ] at hi hj
          exact congrArg Nat.succ (ih used i j sid hi hj)
    · rw [matchAux_cons_some hb] at hi hj
      cases i with
      | zero =>
        simp only [List.getElem?_cons_zero, Option.some.injEq] at hi
        cases j with
        | zero => rfl
        | succ j =>
          simp only [List.getElem?_cons_succ] at hj
          subst hi
          have hmem : sid0 ∈ (matchBoxesAux sessions ds (sid0 :: used)).filterMap id := by
            rw [List.mem_filterMap]
            exact ⟨some sid0, List.getElem?_mem hj, rfl⟩
          exact absurd (List.mem_cons_self _ _)
            (matchAux_filterMap sessions ds (sid0 :: used) sid0 hmem).1
      | succ i =>
        cases j with
        | zero =>
          simp only [List.getElem?_cons_zero, Option.some.injEq] at hj
          simp only [List.getElem?_cons_succ] at hi
          subst hj
          have hmem : sid0 ∈ (matchBoxesAux sessions ds (sid0 :: used)).filterMap id := by
            rw [List.mem_filterMap]
            exact ⟨some sid0, List.getElem?_mem hi, rfl⟩
          exact absurd (List.mem_cons_self _ _)
            (matchAux_filterMap sessions ds (sid0 :: used) sid0 hmem).1
        | succ j =>
          simp only [List.getElem?_cons_succ] at hi hj
          exact congrArg Nat.succ (ih (sid0 :: used) i j sid hi hj)

theorem claimedBefore_zero {m : List (Option Nat)} {sid : Nat} :
    ¬ ClaimedBefore m 0 sid := by
  rintro ⟨j, hj, -⟩
  omega

theorem claimedBefore_cons {o : Option Nat} {m : List (Option Nat)} {i sid : Nat} :
    ClaimedBefore (o :: m) (i + 1) sid ↔ (o = some sid ∨ ClaimedBefore m i sid) := by
  constructor
  · rintro ⟨j, hj, hget⟩
    cases j with
    | zero => exact Or.inl (by simpa using hget)
    | succ j => exact Or.inr ⟨j, by omega, by simpa using hget⟩
  · rintro (h | ⟨j, hj, hget⟩)
    · exact ⟨0, by omega, by simpa using h⟩
    · exact ⟨j + 1, by omega, by simpa using hget⟩

/-- Index-level specification of the association engine: a matched entry is
an unclaimed eligible session of maximal IoU among the sessions still
unclaimed when that detection was processed; a `none` entry means no
still-unclaimed session was eligible. -/
theorem matchAux_spec (sessions : List (Nat × Session)) :
    ∀ (dets : List Box) (used : List Nat) (i : Nat) (d : Box) (o : Option Nat),
      dets[i]? = some d → (matchBoxesAux sessions dets used)[i]? = some o →
      (∀ sid, o = some sid →
        (sid ∉ used ∧ ¬ ClaimedBefore (matchBoxesAux sessions dets used) i sid) ∧
        ∃ s, (sid, s) ∈ sessions ∧ Eligible d s ∧
          ∀ p ∈ sessions,
            p.1 ∉ used → ¬ ClaimedBefore (matchBoxesAux sessions dets used) i p.1 →
            Eligible d p.2 → iou d p.2.box ≤ iou d s.box) ∧
      (o = none → ∀ p ∈ sessions,
        p.1 ∉ used → ¬ ClaimedBefore (matchBoxesAux sessions dets used) i p.1 →
        ¬ Eligible d p.2) := by
  intro dets
  induction dets with
  | nil => intro used i d o hd ho; simp at hd
  | cons d0 ds ih =>
    intro used i d o hd ho
    rcases hb : (bestMatch sessions used d0).1 with _ | sid0
    · rw [matchAux_cons_none hb] at ho ⊢
      cases i with
      | zero =>
        simp only [List.getElem?_cons_zero, Option.some.injEq] at hd ho
        subst hd
        subst ho
        refine ⟨fun sid hsid => by simp at hsid, fun _ => ?_⟩
        intro p hp hpu _hpc
        exact bestMatch_none sessions used d0 hb p hp hpu
      | succ i =>
        simp only [List.getElem?_cons_succ] at hd ho
        have hcl : ∀ x : Nat,
            ClaimedBefore (none :: matchBoxesAux sessions ds used) (i + 1) x ↔
            ClaimedBefore (matchBoxesAux sessions ds used) i x := by
          intro x
          rw [claimedBefore_cons]
          simp
        obtain ⟨ih1, ih2⟩ := ih used i d o hd ho
        constructor
        · intro sid hsid
          obtain ⟨⟨hu, hc⟩, s, hmem, hel, hmax⟩ := ih1 sid hsid
          refine ⟨⟨hu, fun h => hc ((hcl sid).1 h)⟩, s, hmem, hel, ?_⟩
          intro p hp hpu hpc
          exact hmax p hp hpu (fun h => hpc ((hcl p.1).2 h))
        · intro hnone p hp hpu hpc
          exact ih2 hnone p hp hpu (fun h => hpc ((hcl p.1).2 h))
    · rw [matchAux_cons_some hb] at ho ⊢
      cases i with
      | zero =>
        simp only [List.getElem?_cons_zero, Option.some.injEq] at hd ho
        subst hd
        subst ho
        constructor
        · intro sid hsid
          obtain rfl : sid0 = sid := by simpa using hsid
          obtain ⟨s, hmem, hu, hel, -, hmax⟩ := bestMatch_some sessions used d0 sid0 hb
          exact ⟨⟨hu, claimedBefore_zero⟩, s, hmem, hel,
            fun p hp hpu _hpc hpe => hmax p hp hpu hpe⟩
        · intro hc
          simp at hc
      | succ i =>
        simp only [List.getElem?_cons_succ] at hd ho
        set m' := matchBoxesAux sessions ds (sid0 :: used) with hm'
        have hiff : ∀ x : Nat,
            (x ∉ used ∧ ¬ ClaimedBefore (some sid0 :: m') (i + 1) x) ↔
            (x ∉ sid0 :: used ∧ ¬ ClaimedBefore m' i x) := by
          intro x
          rw [claimedBefore_cons]
          simp only [List.mem_cons, not_or, Option.some.injEq]
          tauto
        obtain ⟨ih1, ih2⟩ := ih (sid0 :: used) i d o hd ho
        constructor
        · intro sid hsid
          obtain ⟨⟨hu, hc⟩, s, hmem, hel, hmax⟩ := ih1 sid hsid
          refine ⟨(hiff sid).2 ⟨hu, hc⟩, s, hmem, hel, ?_⟩
          intro p hp hpu hpc
          exact hmax p hp ((hiff p.1).1 ⟨hpu, hpc⟩).1 ((hiff p.1).1 ⟨hpu, hpc⟩).2
        · intro hnone p hp hpu hpc
          exact ih2 hnone p hp ((hiff p.1).1 ⟨hpu, hpc⟩).1 ((hiff p.1).1 ⟨hpu, hpc⟩).2

/-! ## Per-detection-loop lemmas -/

/-- Case analysis: `processDet` does exactly one of three things: update a matched session
in place, silently skip a matched id that is absent from the store
(unreachable in practice), or append a fresh session. -/
theorem processDet_eq (cfg : Config) (now : ℚ) (acc : FrameAcc) (dm : Box × Option Nat) :
    (∃ sid s, dm.2 = some sid ∧ alookup acc.sessions sid = some s ∧
      processDet cfg now acc dm =
        { acc with
          sessions := setEntry acc.sessions sid (updateMatched cfg now dm.1 s)
          seen := sid :: acc.seen }) ∨
    (∃ sid, dm.2 = some sid ∧ alookup acc.sessions sid = none ∧
      processDet cfg now acc dm = acc) ∨
    (dm.2 = none ∧
      processDet cfg now acc dm =
        { sessions := acc.sessions ++ [(acc.nextId, newSession now dm.1)]
          nextId := acc.nextId + 1
          seen := acc.nextId :: acc.seen
          events := acc.events ++ [Event.usage_start acc.nextId dm.1] }) := by
  rcases hdm : dm.2 with _ | sid
  · exact Or.inr (Or.inr ⟨rfl, by rw [processDet, hdm]⟩)
  · rcases hl : alookup acc.sessions sid with _ | s
    · refine Or.inr (Or.inl ⟨sid, rfl, hl, ?_⟩)
      simp only [processDet, hdm, hl]
    · refine Or.inl ⟨sid, s, rfl, hl, ?_⟩
      simp only [processDet, hdm, hl]

theorem processDet_nextId_le (cfg : Config) (now : ℚ) (acc : FrameAcc)
    (dm : Box × Option Nat) : acc.nextId ≤ (processDet cfg now acc dm).nextId := by
  rcases processDet_eq cfg now acc dm with ⟨sid, s, -, -, h⟩ | ⟨sid, -, -, h⟩ | ⟨-, h⟩ <;>
    simp [h]

theorem processDets_nextId_le (cfg : Config) (now : ℚ) :
    ∀ (pairs : List (Box × Option Nat)) (acc : FrameAcc),
      acc.nextId ≤ (processDets cfg now pairs acc).nextId := by
  intro pairs
  induction pairs with
  | nil => intro acc; exact le_refl _
  | cons dm rest ih =>
    intro acc
    exact le_trans (processDet_nextId_le cfg now acc dm) (ih (processDet cfg now acc dm))

/-- A detection pair that does not carry `some sid` leaves session `sid`
alone: same lookup, same seen-membership, and the id bound still holds. -/
theorem processDet_untouched (cfg : Config) (now : ℚ) (acc : FrameAcc)
    (dm : Box × Option Nat) (sid : Nat) (hne : dm.2 ≠ some sid)
    (hlt : sid < acc.nextId) :
    alookup (processDet cfg now acc dm).sessions sid = alookup acc.sessions sid ∧
    (sid ∈ (processDet cfg now acc dm).seen ↔ sid ∈ acc.seen) ∧
    sid < (processDet cfg now acc dm).nextId := by
  rcases processDet_eq cfg now acc dm with ⟨sid', s, hdm, hl, h⟩ | ⟨sid', -, -, h⟩ | ⟨-, h⟩
  · have hne' : sid ≠ sid' := fun he => hne (he ▸ hdm)
    rw [h]
    refine ⟨alookup_setEntry_ne _ _ hne', ?_, hlt⟩
    simp [hne']
  · rw [h]
    exact ⟨rfl, Iff.rfl, hlt⟩
  · rw [h]
    have hne2 : acc.nextId ≠ sid := fun he => absurd (he ▸ hlt) (lt_irrefl _)
    refine ⟨?_, ?_, by simp; omega⟩
    · rcases hl : alookup acc.sessions sid with _ | v
      · rw [alookup_append_right hl]
        simp [alookup, hne2]
      · rw [alookup_append_left hl]
    · simp only [List.mem_cons]
      constructor
      · intro hmem
        rcases hmem with h1 | h1
        · exact absurd h1.symm hne2
        · exact h1
      · exact fun hmem => Or.inr hmem

/-- Sessions whose id is matched by no pair of the frame are left alone by
the whole per-detection loop. -/
theorem processDets_untouched (cfg : Config) (now : ℚ) :
    ∀ (pairs : List (Box × Option Nat)) (acc : FrameAcc) (sid : Nat),
      (∀ b, (b, some sid) ∉ pairs) → sid < acc.nextId →
      alookup (processDets cfg now pairs acc).sessions sid = alookup acc.sessions sid ∧
      (sid ∈ (processDets cfg now pairs acc).seen ↔ sid ∈ acc.seen) ∧
      sid < (processDets cfg now pairs acc).nextId := by
  intro pairs
  induction pairs with
  | nil => intro acc sid _ hlt; exact ⟨rfl, Iff.rfl, hlt⟩
  | cons dm rest ih =>
    intro acc sid hni hlt
    have hne : dm.2 ≠ some sid := by
      intro he
      exact hni dm.1 (by
        have : dm = (dm.1, some sid) := by
          rcases dm with ⟨b, o⟩
          simp at he
          simp [he]
        rw [← this]
        exact List.mem_cons_self _ _)
    obtain ⟨h1, h2, h3⟩ := processDet_untouched cfg now acc dm sid hne hlt
    have hni' : ∀ b, (b, some sid) ∉ rest := fun b hb => hni b (List.mem_cons_of_mem _ hb)
    obtain ⟨g1, g2, g3⟩ := ih (processDet cfg now acc dm) sid hni' h3
    exact ⟨g1.trans h1, g2.trans h2, g3⟩

/-- The session matched by the unique pair carrying `some sid` ends the loop
updated by `updateMatched` with that pair's box, and `sid` is seen. -/
theorem processDets_matched (cfg : Config) (now : ℚ) :
    ∀ (l1 : List (Box × Option Nat)) (b : Box) (l2 : List (Box × Option Nat))
      (acc : FrameAcc) (sid : Nat) (s : Session),
      (∀ b', (b', some sid) ∉ l1) → (∀ b', (b', some sid) ∉ l2) →
      sid < acc.nextId → alookup acc.sessions sid = some s →
      alookup (processDets cfg now (l1 ++ (b, some sid) :: l2) acc).sessions sid =
        some (updateMatched cfg now b s) ∧
      sid ∈ (processDets cfg now (l1 ++ (b, some sid) :: l2) acc).seen := by
  intro l1
  induction l1 with
  | nil =>
    intro b l2 acc sid s _ hni2 hlt hl
    simp only [List.nil_append]
    have hstep : processDets cfg now ((b, some sid) :: l2) acc =
        processDets cfg now l2 (processDet cfg now acc (b, some sid)) := rfl
    rcases processDet_eq cfg now acc (b, some sid) with
      ⟨sid', s', hdm, hl', h⟩ | ⟨sid', hdm, hl', h⟩ | ⟨hdm, -⟩
    · simp only at hdm
      injection hdm with hdm
      subst hdm
      rw [hl] at hl'
      injection hl' with hl'
      subst hl'
      rw [hstep, h]
      have hacc' : alookup (setEntry acc.sessions sid (updateMatched cfg now b s)) sid =
          some (updateMatched cfg now b s) := by
        rw [alookup_setEntry_self, hl]
        rfl
      obtain ⟨g1, g2, -⟩ := processDets_untouched cfg now l2
        { acc with
          sessions := setEntry acc.sessions sid (updateMatched cfg now b s)
          seen := sid :: acc.seen } sid hni2 hlt
      refine ⟨by rw [g1]; exact hacc', g2.2 (List.mem_cons_self _ _)⟩
    · simp only at hdm
      injection hdm with hdm
      subst hdm
      rw [hl] at hl'
      exact absurd hl' (by simp)
    · simp at hdm
  | cons dm l1 ih =>
    intro b l2 acc sid s hni1 hni2 hlt hl
    have hne : dm.2 ≠ some sid := by
      intro he
      exact hni1 dm.1 (by
        have : dm = (dm.1, some sid) := by
          rcases dm with ⟨b', o⟩
          simp at he
          simp [he]
        rw [← this]
        exact List.mem_cons_self _ _)
    obtain ⟨h1, -, h3⟩ := processDet_untouched cfg now acc dm sid hne hlt
    have hni1' : ∀ b', (b', some sid) ∉ l1 := fun b' hb => hni1 b' (List.mem_cons_of_mem _ hb)
    have hstep : processDets cfg now ((dm :: l1) ++ (b, some sid) :: l2) acc =
        processDets cfg now (l1 ++ (b, some sid) :: l2) (processDet cfg now acc dm) := rfl
    rw [hstep]
    exact ih b l2 (processDet cfg now acc dm) sid s hni1' hni2 h3 (by rw [h1]; exact hl)

/-- Key distinctness and the id bound survive the per-detection loop. -/
theorem processDets_wf (cfg : Config) (now : ℚ) :
    ∀ (pairs : List (Box × Option Nat)) (acc : FrameAcc),
      (acc.sessions.map Prod.fst).Nodup → (∀ p ∈ acc.sessions, p.1 < acc.nextId) →
      ((processDets cfg now pairs acc).sessions.map Prod.fst).Nodup ∧
        ∀ p ∈ (processDets cfg now pairs acc).sessions,
          p.1 < (processDets cfg now pairs acc).nextId := by
  intro pairs
  induction pairs with
  | nil => intro acc h1 h2; exact ⟨h1, h2⟩
  | cons dm rest ih =>
    intro acc h1 h2
    have hstep : processDets cfg now (dm :: rest) acc =
        processDets cfg now rest (processDet cfg now acc dm) := rfl
    rw [hstep]
    rcases processDet_eq cfg now acc dm with ⟨sid, s, -, hl, h⟩ | ⟨sid, -, -, h⟩ | ⟨-, h⟩
    · refine ih _ ?_ ?_ <;> rw [h]
      · simpa [keys_setEntry] using h1
      · intro p hp
        rcases mem_setEntry hp with hp' | hp'
        · exact h2 p hp'
        · rcases hp' with rfl
          simpa using h2 (sid, s) (alookup_mem hl)
    · rw [h]
      exact ih acc h1 h2
    · refine ih _ ?_ ?_ <;> rw [h]
      · simp only [List.map_append, List.map_cons, List.map_nil]
        rw [List.nodup_append]
        refine ⟨h1, List.nodup_singleton _, ?_⟩
        intro a ha hb
        simp only [List.mem_singleton] at hb
        subst hb
        obtain ⟨p, hp, hpe⟩ := List.mem_map.1 ha
        have := h2 p hp
        omega
      · intro p hp
        rcases List.mem_append.1 hp with hp' | hp'
        · exact lt_trans (h2 p hp') (Nat.lt_succ_self _)
        · simp only [List.mem_singleton] at hp'
          subst hp'
          exact Nat.lt_succ_self _

/-- A per-session property closed under the matched-session update and true
of fresh sessions is preserved by the per-detection loop. -/
theorem processDets_preserve (cfg : Config) (now : ℚ) (Q : Session → Prop)
    (hup : ∀ b s, Q s → Q (updateMatched cfg now b s))
    (hnew : ∀ b, Q (newSession now b)) :
    ∀ (pairs : List (Box × Option Nat)) (acc : FrameAcc),
      (∀ p ∈ acc.sessions, Q p.2) →
      ∀ p ∈ (processDets cfg now pairs acc).sessions, Q p.2 := by
  intro pairs
  induction pairs with
  | nil => intro acc h; exact h
  | cons dm rest ih =>
    intro acc h
    have hstep : processDets cfg now (dm :: rest) acc =
        processDets cfg now rest (processDet cfg now acc dm) := rfl
    rw [hstep]
    refine ih _ ?_
    rcases processDet_eq cfg now acc dm with ⟨sid, s, -, hl, heq⟩ | ⟨sid, -, -, heq⟩ | ⟨-, heq⟩ <;>
      rw [heq]
    · intro p hp
      rcases mem_setEntry hp with hp' | hp'
      · exact h p hp'
      · rcases hp' with rfl
        exact hup dm.1 s (h (sid, s) (alookup_mem hl))
    · exact h
    · intro p hp
      rcases List.mem_append.1 hp with hp' | hp'
      · exact h p hp'
      · simp only [List.mem_singleton] at hp'
        subst hp'
        exact hnew dm.1

/-- A key at or above the incoming `nextId` that no pair matches can only end
the loop bound to a fresh session created this frame. -/
theorem processDets_fresh (cfg : Config) (now : ℚ) :
    ∀ (pairs : List (Box × Option Nat)) (acc : FrameAcc) (sid : Nat) (s' : Session),
      (∀ p ∈ acc.sessions, p.1 < acc.nextId) →
      (∀ b, (b, some sid) ∉ pairs) →
      acc.nextId ≤ sid →
      alookup (processDets cfg now pairs acc).sessions sid = some s' →
      ∃ b, s' = newSession now b := by
  intro pairs
  induction pairs with
  | nil =>
    intro acc sid s' hbound _ hge hl
    have := hbound (sid, s') (alookup_mem hl)
    omega
  | cons dm rest ih =>
    intro acc sid s' hbound hni hge hl
    have hstep : processDets cfg now (dm :: rest) acc =
        processDets cfg now rest (processDet cfg now acc dm) := rfl
    rw [hstep] at hl
    have hni' : ∀ b, (b, some sid) ∉ rest := fun b hb => hni b (List.mem_cons_of_mem _ hb)
    rcases processDet_eq cfg now acc dm with
      ⟨sid0, s0, -, hl0, heq⟩ | ⟨sid0, -, -, heq⟩ | ⟨-, heq⟩
    · refine ih _ sid s' ?_ hni' (by rw [heq]; exact hge) hl
      rw [heq]
      intro p hp
      rcases mem_setEntry hp with hp' | hp'
      · exact hbound p hp'
      · rcases hp' with rfl
        simpa using hbound (sid0, s0) (alookup_mem hl0)
    · rw [heq] at hl
      exact ih acc sid s' hbound hni' hge hl
    · rcases Nat.lt_or_ge sid (acc.nextId + 1) with hlt | hge'
      · have hsid : sid = acc.nextId := by omega
        obtain ⟨g1, -, -⟩ := processDets_untouched cfg now rest (processDet cfg now acc dm)
          sid hni' (by rw [heq]; simp; omega)
        rw [g1, heq] at hl
        have hnone : alookup acc.sessions sid = none := by
          rw [alookup_eq_none]
          intro hmem
          obtain ⟨p, hp, hpe⟩ := List.mem_map.1 hmem
          have := hbound p hp
          omega
        rw [alookup_append_right hnone] at hl
        simp only [alookup] at hl
        rw [if_pos hsid.symm] at hl
        exact ⟨dm.1, by injection hl with h; rw [← h]⟩
      · refine ih _ sid s' ?_ hni' (by rw [heq]; simpa using hge') hl
        rw [heq]
        intro p hp
        rcases List.mem_append.1 hp with hp' | hp'
        · have := hbound p hp'
          simp only []
          omega
        · simp only [List.mem_singleton] at hp'
          subst hp'
          simp

/-- The per-detection loop only ever appends `usage_start` lines. -/
theorem processDets_events_origin (cfg : Config) (now : ℚ) :
    ∀ (pairs : List (Box × Option Nat)) (acc : FrameAcc),
      ∀ e ∈ (processDets cfg now pairs acc).events,
        e ∈ acc.events ∨ ∃ sid b, e = Event.usage_start sid b := by
  intro pairs
  induction pairs with
  | nil => intro acc e he; exact Or.inl he
  | cons dm rest ih =>
    intro acc e he
    have hstep : processDets cfg now (dm :: rest) acc =
        processDets cfg now rest (processDet cfg now acc dm) := rfl
    rw [hstep] at he
    rcases ih (processDet cfg now acc dm) e he with he' | he'
    · rcases processDet_eq cfg now acc dm with
        ⟨sid, s, -, -, heq⟩ | ⟨sid, -, -, heq⟩ | ⟨-, heq⟩ <;> rw [heq] at he'
      · exact Or.inl he'
      · exact Or.inl he'
      · simp only [List.mem_append, List.mem_singleton] at he'
        rcases he' with he' | he'
        · exact Or.inl he'
        · exact Or.inr ⟨acc.nextId, dm.1, he'⟩
    · exact Or.inr he'

/-- The `usage_start` ids appended by one frame's per-detection loop are
strictly increasing and sit in `[acc.nextId, result.nextId)`. -/
theorem processDets_startIds (cfg : Config) (now : ℚ) :
    ∀ (pairs : List (Box × Option Nat)) (acc : FrameAcc),
      ∃ fresh : List Nat,
        startIds (processDets cfg now pairs acc).events = startIds acc.events ++ fresh ∧
        fresh.Pairwise (· < ·) ∧
        ∀ x ∈ fresh, acc.nextId ≤ x ∧ x < (processDets cfg now pairs acc).nextId := by
  intro pairs
  induction pairs with
  | nil =>
    intro acc
    exact ⟨[], by simp [processDets], List.Pairwise.nil, by simp⟩
  | cons dm rest ih =>
    intro acc
    have hstep : processDets cfg now (dm :: rest) acc =
        processDets cfg now rest (processDet cfg now acc dm) := rfl
    rw [hstep]
    obtain ⟨fresh, hf1, hf2, hf3⟩ := ih (processDet cfg now acc dm)
    have hmid : acc.nextId ≤ (processDet cfg now acc dm).nextId :=
      processDet_nextId_le cfg now acc dm
    rcases processDet_eq cfg now acc dm with
      ⟨sid, s, -, -, heq⟩ | ⟨sid, -, -, heq⟩ | ⟨-, heq⟩
    · exact ⟨fresh, by rw [hf1, heq], hf2,
        fun x hx => ⟨le_trans hmid (hf3 x hx).1, (hf3 x hx).2⟩⟩
    · exact ⟨fresh, by rw [hf1, heq], hf2,
        fun x hx => ⟨le_trans hmid (hf3 x hx).1, (hf3 x hx).2⟩⟩
    · have hsucc : (processDet cfg now acc dm).nextId = acc.nextId + 1 := by rw [heq]
      refine ⟨acc.nextId :: fresh, ?_, ?_, ?_⟩
      · rw [hf1, heq]
        simp [startIds]
      · refine List.pairwise_cons.2 ⟨?_, hf2⟩
        intro x hx
        have := (hf3 x hx).1
        omega
      · intro x hx
        rcases List.mem_cons.1 hx with hx' | hx'
        · subst hx'
          refine ⟨le_refl _, ?_⟩
          have := processDets_nextId_le cfg now rest (processDet cfg now acc dm)
          omega
        · have := hf3 x hx'
          omega

/-! ## Finalize-pass and alert-pass lemmas -/

/-- A session survives the disappearance check iff it was seen this frame or
its gap is within tolerance. -/
theorem finalizePass_mem (cfg : Config) (now : ℚ) (seen : List Nat) :
    ∀ (l : List (Nat × Session)) (p : Nat × Session),
      p ∈ (finalizePass cfg now seen l).1 ↔
        p ∈ l ∧ (p.1 ∈ seen ∨ now - p.2.last_seen_ts ≤ cfg.gap_tolerance_sec) := by
  intro l
  induction l with
  | nil => intro p; simp [finalizePass]
  | cons q rest ih =>
    intro p
    by_cases hq : q.1 ∈ seen
    · rw [finalizePass, if_pos hq]
      simp only [List.mem_cons, ih]
      constructor
      · rintro (rfl | ⟨hp, hcond⟩)
        · exact ⟨Or.inl rfl, Or.inl hq⟩
        · exact ⟨Or.inr hp, hcond⟩
      · rintro ⟨rfl | hp, hcond⟩
        · exact Or.inl rfl
        · exact Or.inr ⟨hp, hcond⟩
    · by_cases hg : now - q.2.last_seen_ts > cfg.gap_tolerance_sec
      · rw [finalizePass, if_neg hq, if_pos hg]
        simp only [List.mem_cons, ih]
        constructor
        · rintro ⟨hp, hcond⟩
          exact ⟨Or.inr hp, hcond⟩
        · rintro ⟨rfl | hp, hcond⟩
          · rcases hcond with hc | hc
            · exact absurd hc hq
            · exact absurd hc (not_le.2 hg)
          · exact ⟨hp, hcond⟩
      · rw [finalizePass, if_neg hq, if_neg hg]
        simp only [List.mem_cons, ih]
        constructor
        · rintro (rfl | ⟨hp, hcond⟩)
          · exact ⟨Or.inl rfl, Or.inr (not_lt.1 hg)⟩
          · exact ⟨Or.inr hp, hcond⟩
        · rintro ⟨rfl | hp, hcond⟩
          · exact Or.inl rfl
          · exact Or.inr ⟨hp, hcond⟩

/-- The surviving sessions form a sublist (order preserved, no additions). -/
theorem finalizePass_sublist (cfg : Config) (now : ℚ) (seen : List Nat) :
    ∀ l : List (Nat × Session), (finalizePass cfg now seen l).1.Sublist l := by
  intro l
  induction l with
  | nil => simp [finalizePass]
  | cons q rest ih =>
    rw [finalizePass]
    split_ifs
    · exact List.Sublist.cons₂ q ih
    · exact List.Sublist.cons q ih
    · exact List.Sublist.cons₂ q ih

/-- Exactly the unseen, beyond-tolerance sessions produce `usage_end` lines,
carrying the truncated accumulated duration and the alert flag. -/
theorem finalizePass_events (cfg : Config) (now : ℚ) (seen : List Nat) :
    ∀ (l : List (Nat × Session)) (e : Event),
      e ∈ (finalizePass cfg now seen l).2 ↔
        ∃ p, p ∈ l ∧ p.1 ∉ seen ∧ now - p.2.last_seen_ts > cfg.gap_tolerance_sec ∧
          e = Event.usage_end p.1 (pyInt p.2.accumulated) p.2.alert_sent := by
  intro l
  induction l with
  | nil => intro e; simp [finalizePass]
  | cons q rest ih =>
    intro e
    by_cases hq : q.1 ∈ seen
    · rw [finalizePass, if_pos hq]
      simp only [ih]
      constructor
      · rintro ⟨p, hp, h1, h2, h3⟩
        exact ⟨p, List.mem_cons_of_mem _ hp, h1, h2, h3⟩
      · rintro ⟨p, hp, h1, h2, h3⟩
        rcases List.mem_cons.1 hp with rfl | hp'
        · exact absurd hq h1
        · exact ⟨p, hp', h1, h2, h3⟩
    · by_cases hg : now - q.2.last_seen_ts > cfg.gap_tolerance_sec
      · rw [finalizePass, if_neg hq, if_pos hg]
        simp only [List.mem_cons, ih]
        constructor
        · rintro (rfl | ⟨p, hp, h1, h2, h3⟩)
          · exact ⟨q, Or.inl rfl, hq, hg, rfl⟩
          · exact ⟨p, Or.inr hp, h1, h2, h3⟩
        · rintro ⟨p, rfl | hp, h1, h2, h3⟩
          · exact Or.inl h3
          · exact Or.inr ⟨p, hp, h1, h2, h3⟩
      · rw [finalizePass, if_neg hq, if_neg hg]
        simp only [ih]
        constructor
        · rintro ⟨p, hp, h1, h2, h3⟩
          exact ⟨p, List.mem_cons_of_mem _ hp, h1, h2, h3⟩
        · rintro ⟨p, hp, h1, h2, h3⟩
          rcases List.mem_cons.1 hp with rfl | hp'
          · exact absurd h2 hg
          · exact ⟨p, hp', h1, h2, h3⟩

/-- The alert loop maps `alertApply` over the surviving sessions. -/
theorem alertPass_fst (cfg : Config) :
    ∀ l : List (Nat × Session),
      (alertPass cfg l).1 = l.map fun p => (p.1, alertApply cfg p.2) := by
  intro l
  induction l with
  | nil => simp [alertPass]
  | cons q rest ih =>
    rcases q with ⟨sid, s⟩
    rw [alertPass]
    by_cases hc : s.alert_sent = false ∧ cfg.alert_threshold_sec ≤ s.accumulated
    · rw [if_pos hc]
      simp only [List.map_cons, ih, alertApply, if_pos hc]
    · rw [if_neg hc]
      simp only [List.map_cons, ih, alertApply, if_neg hc]

/-- The alert events of one frame are exactly one line per session whose flag
flips this frame. -/
theorem alertPass_events (cfg : Config) :
    ∀ (l : List (Nat × Session)) (e : Event),
      e ∈ (alertPass cfg l).2 ↔
        ∃ p, p ∈ l ∧ p.2.alert_sent = false ∧ cfg.alert_threshold_sec ≤ p.2.accumulated ∧
          e = Event.alert_triggered p.1 (pyInt p.2.accumulated) := by
  intro l
  induction l with
  | nil => intro e; simp [alertPass]
  | cons q rest ih =>
    intro e
    rcases q with ⟨sid, s⟩
    rw [alertPass]
    by_cases hc : s.alert_sent = false ∧ cfg.alert_threshold_sec ≤ s.accumulated
    · rw [if_pos hc]
      simp only [List.mem_cons, ih]
      constructor
      · rintro (rfl | ⟨p, hp, h1, h2, h3⟩)
        · exact ⟨(sid, s), Or.inl rfl, hc.1, hc.2, rfl⟩
        · exact ⟨p, Or.inr hp, h1, h2, h3⟩
      · rintro ⟨p, rfl | hp, h1, h2, h3⟩
        · exact Or.inl h3
        · exact Or.inr ⟨p, hp, h1, h2, h3⟩
    · rw [if_neg hc]
      simp only [ih]
      constructor
      · rintro ⟨p, hp, h1, h2, h3⟩
        exact ⟨p, List.mem_cons_of_mem _ hp, h1, h2, h3⟩
      · rintro ⟨p, hp, h1, h2, h3⟩
        rcases List.mem_cons.1 hp with rfl | hp'
        · exact absurd ⟨h1, h2⟩ hc
        · exact ⟨p, hp', h1, h2, h3⟩

theorem alookup_map_values {α β : Type} [DecidableEq α] (f : β → β) :
    ∀ (l : List (α × β)) (k : α),
      alookup (l.map fun p => (p.1, f p.2)) k = (alookup l k).map f := by
  intro l
  induction l with
  | nil => intro k; simp [alookup]
  | cons q rest ih =>
    intro k
    by_cases hq : q.1 = k <;> simp [alookup, hq, ih]

theorem alertCount_append (sid : Nat) (l1 l2 : List Event) :
    alertCount sid (l1 ++ l2) = alertCount sid l1 + alertCount sid l2 := by
  simp [alertCount, List.filter_append]

theorem alertCount_eq_zero (sid : Nat) (l : List Event) :
    alertCount sid l = 0 ↔ ∀ d, Event.alert_triggered sid d ∉ l := by
  rw [alertCount, List.length_eq_zero, List.filter_eq_nil]
  constructor
  · intro h d hd
    have := h _ hd
    simp at this
  · intro h e he
    rcases e with ⟨s, b⟩ | ⟨s, d, f⟩ | ⟨s, d⟩
    · simp
    · simp
    · by_cases hs : s = sid
      · subst hs
        exact absurd he (h d)
      · simp [hs]

/-- With distinct keys, one frame's alert loop emits exactly one alert line
for a below-threshold-flag session reaching the threshold, and none
otherwise. -/
theorem alertPass_alertCount (cfg : Config) :
    ∀ (l : List (Nat × Session)) (sid : Nat), ((l.map Prod.fst).Nodup) →
      alertCount sid (alertPass cfg l).2 =
        (match alookup l sid with
          | some s =>
            if s.alert_sent = false ∧ cfg.alert_threshold_sec ≤ s.accumulated then 1 else 0
          | none => 0) := by
  intro l
  induction l with
  | nil => intro sid _; simp [alertPass, alertCount, alookup]
  | cons q rest ih =>
    intro sid hnd
    rcases q with ⟨k, s⟩
    simp only [List.map_cons, List.nodup_cons] at hnd
    rw [alertPass]
    by_cases hc : s.alert_sent = false ∧ cfg.alert_threshold_sec ≤ s.accumulated
    · rw [if_pos hc]
      by_cases hk : k = sid
      · subst hk
        have hz : alertCount k (alertPass cfg rest).2 = 0 := by
          rw [alertCount_eq_zero]
          intro d hd
          obtain ⟨p, hp, -, -, he⟩ := (alertPass_events cfg rest _).1 hd
          have : p.1 = k := by
            injection he with h1 h2
            exact h1.symm
          exact hnd.1 (this ▸ List.mem_map_of_mem Prod.fst hp)
        have hhead : alertCount k
            (Event.alert_triggered k (pyInt s.accumulated) :: (alertPass cfg rest).2) =
            1 + alertCount k (alertPass cfg rest).2 := by
          simp [alertCount, List.filter_cons, Nat.add_comm]
        rw [hhead, hz]
        simp [alookup, hc]
      · have hhead : alertCount sid
            (Event.alert_triggered k (pyInt s.accumulated) :: (alertPass cfg rest).2) =
            alertCount sid (alertPass cfg rest).2 := by
          simp [alertCount, List.filter_cons, hk]
        rw [hhead, ih sid hnd.2]
        simp [alookup, hk]
    · rw [if_neg hc]
      by_cases hk : k = sid
      · subst hk
        have hz : alertCount k (alertPass cfg rest).2 = 0 := by
          rw [alertCount_eq_zero]
          intro d hd
          obtain ⟨p, hp, -, -, he⟩ := (alertPass_events cfg rest _).1 hd
          have : p.1 = k := by
            injection he with h1 h2
            exact h1.symm
          exact hnd.1 (this ▸ List.mem_map_of_mem Prod.fst hp)
        rw [hz]
        simp [alookup, hc]
      · rw [ih sid hnd.2]
        simp [alookup, hk]

/-! ## Frame-step aggregation lemmas -/

theorem zip_filterMap_snd :
    ∀ (l : List Box) (m : List (Option Nat)), l.length = m.length →
      (l.zip m).filterMap Prod.snd = m.filterMap id := by
  intro l
  induction l with
  | nil =>
    intro m hm
    cases m with
    | nil => simp
    | cons o m => simp at hm
  | cons b l ih =>
    intro m hm
    cases m with
    | nil => simp at hm
    | cons o m =>
      simp only [List.length_cons, Nat.succ.injEq] at hm
      rcases o with _ | sid <;>
        simp [List.zip_cons_cons, List.filterMap_cons, ih m hm]

/-- Distinct matched ids among one frame's detection/mapping pairs. -/
theorem pairs_snd_nodup (sessions : List (Nat × Session)) (dets : List Box) :
    ((dets.zip (matchBoxesToSessions sessions dets)).filterMap Prod.snd).Nodup := by
  have hlen : dets.length = (matchBoxesToSessions sessions dets).length :=
    (matchAux_length sessions dets []).symm
  rw [zip_filterMap_snd dets _ hlen]
  exact matchAux_nodup sessions dets []

/-- Projections of `detectStep` (definitional). -/
theorem detectStep_fst_sessions (cfg : Config) (st : DetectorState) (now : ℚ)
    (dets : List Box) :
    (detectStep cfg st now dets).1.active_sessions =
      (alertPass cfg (lifecycleStep cfg now st dets).1.active_sessions).1 := rfl

theorem detectStep_fst_nextId (cfg : Config) (st : DetectorState) (now : ℚ)
    (dets : List Box) :
    (detectStep cfg st now dets).1.next_session_id =
      (lifecycleStep cfg now st dets).1.next_session_id := rfl

theorem detectStep_events (cfg : Config) (st : DetectorState) (now : ℚ)
    (dets : List Box) :
    (detectStep cfg st now dets).2 =
      (lifecycleStep cfg now st dets).2.2 ++
        (alertPass cfg (lifecycleStep cfg now st dets).1.active_sessions).2 := rfl

/-- Projections of `lifecycleStep` in terms of the per-detection accumulator
(definitional). -/
theorem lifecycleStep_fst_sessions (cfg : Config) (now : ℚ) (st : DetectorState)
    (dets : List Box) :
    (lifecycleStep cfg now st dets).1.active_sessions =
      (finalizePass cfg now
        (processDets cfg now (dets.zip (matchBoxesToSessions st.active_sessions dets))
          { sessions := st.active_sessions, nextId := st.next_session_id
            seen := [], events := [] }).seen
        (processDets cfg now (dets.zip (matchBoxesToSessions st.active_sessions dets))
          { sessions := st.active_sessions, nextId := st.next_session_id
            seen := [], events := [] }).sessions).1 := rfl

theorem lifecycleStep_fst_nextId (cfg : Config) (now : ℚ) (st : DetectorState)
    (dets : List Box) :
    (lifecycleStep cfg now st dets).1.next_session_id =
      (processDets cfg now (dets.zip (matchBoxesToSessions st.active_sessions dets))
        { sessions := st.active_sessions, nextId := st.next_session_id
          seen := [], events := [] }).nextId := rfl

theorem lifecycleStep_seen (cfg : Config) (now : ℚ) (st : DetectorState)
    (dets : List Box) :
    (lifecycleStep cfg now st dets).2.1 =
      (processDets cfg now (dets.zip (matchBoxesToSessions st.active_sessions dets))
        { sessions := st.active_sessions, nextId := st.next_session_id
          seen := [], events := [] }).seen := rfl

theorem lifecycleStep_events (cfg : Config) (now : ℚ) (st : DetectorState)
    (dets : List Box) :
    (lifecycleStep cfg now st dets).2.2 =
      (processDets cfg now (dets.zip (matchBoxesToSessions st.active_sessions dets))
        { sessions := st.active_sessions, nextId := st.next_session_id
          seen := [], events := [] }).events ++
      (finalizePass cfg now
        (processDets cfg now (dets.zip (matchBoxesToSessions st.active_sessions dets))
          { sessions := st.active_sessions, nextId := st.next_session_id
            seen := [], events := [] }).seen
        (processDets cfg now (dets.zip (matchBoxesToSessions st.active_sessions dets))
          { sessions := st.active_sessions, nextId := st.next_session_id
            seen := [], events := [] }).sessions).2 := rfl

/-- Well-formedness survives the lifecycle portion of a frame step. -/
theorem lifecycleStep_wf (cfg : Config) (now : ℚ) (st : DetectorState)
    (dets : List Box) (hwf : WF st) : WF (lifecycleStep cfg now st dets).1 := by
  obtain ⟨hnd, hbd⟩ := hwf
  obtain ⟨h1, h2⟩ := processDets_wf cfg now
    (dets.zip (matchBoxesToSessions st.active_sessions dets))
    { sessions := st.active_sessions, nextId := st.next_session_id
      seen := [], events := [] } hnd hbd
  constructor
  · rw [lifecycleStep_fst_sessions]
    exact h1.sublist (List.Sublist.map Prod.fst (finalizePass_sublist cfg now _ _))
  · intro p hp
    rw [lifecycleStep_fst_sessions] at hp
    rw [lifecycleStep_fst_nextId]
    exact h2 p ((finalizePass_sublist cfg now _ _).mem hp)

/-- Well-formedness survives a whole frame step. -/
theorem detectStep_wf (cfg : Config) (st : DetectorState) (now : ℚ)
    (dets : List Box) (hwf : WF st) : WF (detectStep cfg st now dets).1 := by
  obtain ⟨h1, h2⟩ := lifecycleStep_wf cfg now st dets hwf
  constructor
  · rw [detectStep_fst_sessions, alertPass_fst]
    simpa using h1
  · intro p hp
    rw [detectStep_fst_sessions, alertPass_fst] at hp
    rw [detectStep_fst_nextId]
    obtain ⟨q, hq, hqe⟩ := List.mem_map.1 hp
    have := h2 q hq
    rw [← hqe]
    exact this

theorem traces_wf {cfg : Config} {t : ℚ} {st : DetectorState} {evs : List Event}
    (h : Traces cfg t st evs) : WF st := by
  induction h with
  | init t => exact ⟨List.nodup_nil, by simp [initState]⟩
  | step now dets _h _hle ih => exact detectStep_wf _ _ _ _ ih

/-- Every matched session id of a frame is an open-session key. -/
theorem mapping_mem_keys (sessions : List (Nat × Session)) (dets : List Box)
    {sid : Nat} (h : some sid ∈ matchBoxesToSessions sessions dets) :
    sid ∈ sessions.map Prod.fst := by
  have : sid ∈ (matchBoxesAux sessions dets []).filterMap id := by
    rw [List.mem_filterMap]
    exact ⟨some sid, h, rfl⟩
  exact (matchAux_filterMap sessions dets [] sid this).2

/-- Fate of a session matched by some detection of the frame: it ends the
lifecycle portion updated by `updateMatched` with the matching detection's
box, is marked seen, and no `usage_end` is emitted for it. -/
theorem lifecycle_matched (cfg : Config) (now : ℚ) (st : DetectorState)
    (dets : List Box) (b : Box) (sid : Nat) (s : Session) (hwf : WF st)
    (hmem : (b, some sid) ∈ dets.zip (matchBoxesToSessions st.active_sessions dets))
    (hl : alookup st.active_sessions sid = some s) :
    alookup (lifecycleStep cfg now st dets).1.active_sessions sid =
      some (updateMatched cfg now b s) ∧
    sid ∈ (lifecycleStep cfg now st dets).2.1 ∧
    ∀ d fl, Event.usage_end sid d fl ∉ (lifecycleStep cfg now st dets).2.2 := by
  obtain ⟨hnd, hbd⟩ := hwf
  set pairs := dets.zip (matchBoxesToSessions st.active_sessions dets) with hpairs
  set acc0 : FrameAcc :=
    { sessions := st.active_sessions, nextId := st.next_session_id
      seen := [], events := [] } with hacc0
  set acc := processDets cfg now pairs acc0 with hacc
  obtain ⟨l1, l2, hdec⟩ := List.append_of_mem hmem
  have hfm : pairs.filterMap Prod.snd =
      l1.filterMap Prod.snd ++ sid :: l2.filterMap Prod.snd := by
    rw [hdec]
    simp
  have hnodup := pairs_snd_nodup st.active_sessions dets
  rw [hfm] at hnodup
  have hni1 : ∀ b', (b', some sid) ∉ l1 := by
    intro b' hb'
    have : sid ∈ l1.filterMap Prod.snd := by
      rw [List.mem_filterMap]
      exact ⟨(b', some sid), hb', rfl⟩
    rcases List.nodup_append.1 hnodup with ⟨-, -, hdisj⟩
    exact hdisj this (List.mem_cons_self _ _)
  have hni2 : ∀ b', (b', some sid) ∉ l2 := by
    intro b' hb'
    have hmem2 : sid ∈ l2.filterMap Prod.snd := by
      rw [List.mem_filterMap]
      exact ⟨(b', some sid), hb', rfl⟩
    rcases List.nodup_append.1 hnodup with ⟨-, hnd2, -⟩
    exact (List.nodup_cons.1 hnd2).1 hmem2
  have hlt : sid < acc0.nextId := hbd (sid, s) (alookup_mem hl)
  have hmain := processDets_matched cfg now l1 b l2 acc0 sid s hni1 hni2 hlt hl
  rw [← hdec] at hmain
  obtain ⟨hlook, hseen⟩ := hmain
  obtain ⟨haccnd, haccbd⟩ := processDets_wf cfg now pairs acc0 hnd hbd
  have hmemacc : (sid, updateMatched cfg now b s) ∈ acc.sessions := alookup_mem hlook
  have hkept : (sid, updateMatched cfg now b s) ∈
      (finalizePass cfg now acc.seen acc.sessions).1 :=
    (finalizePass_mem cfg now acc.seen acc.sessions _).2 ⟨hmemacc, Or.inl hseen⟩
  have hkeptnd : ((finalizePass cfg now acc.seen acc.sessions).1.map Prod.fst).Nodup :=
    haccnd.sublist (List.Sublist.map Prod.fst (finalizePass_sublist cfg now _ _))
  refine ⟨?_, ?_, ?_⟩
  · rw [lifecycleStep_fst_sessions]
    exact alookup_of_mem_nodup hkeptnd hkept
  · rw [lifecycleStep_seen]
    exact hseen
  · intro d fl hin
    rw [lifecycleStep_events] at hin
    rcases List.mem_append.1 hin with hin' | hin'
    · rcases processDets_events_origin cfg now pairs acc0 _ hin' with h0 | ⟨sid', b', he⟩
      · simp [hacc0] at h0
      · simp at he
    · obtain ⟨p, -, hps, -, hpe⟩ := (finalizePass_events cfg now acc.seen acc.sessions _).1 hin'
      have : p.1 = sid := by
        injection hpe with h1 h2 h3
        exact h1.symm
      exact hps (this ▸ hseen)

/-- Fate of an open session matched by no detection of the frame: finalized
with its `usage_end` line iff its gap strictly exceeds the tolerance,
otherwise kept identically; never marked seen. -/
theorem lifecycle_unmatched (cfg : Config) (now : ℚ) (st : DetectorState)
    (dets : List Box) (sid : Nat) (s : Session) (hwf : WF st)
    (hl : alookup st.active_sessions sid = some s)
    (hnm : some sid ∉ matchBoxesToSessions st.active_sessions dets) :
    (now - s.last_seen_ts > cfg.gap_tolerance_sec →
      alookup (lifecycleStep cfg now st dets).1.active_sessions sid = none ∧
      Event.usage_end sid (pyInt s.accumulated) s.alert_sent ∈
        (lifecycleStep cfg now st dets).2.2) ∧
    (now - s.last_seen_ts ≤ cfg.gap_tolerance_sec →
      alookup (lifecycleStep cfg now st dets).1.active_sessions sid = some s ∧
      ∀ d fl, Event.usage_end sid d fl ∉ (lifecycleStep cfg now st dets).2.2) ∧
    sid ∉ (lifecycleStep cfg now st dets).2.1 := by
  obtain ⟨hnd, hbd⟩ := hwf
  set pairs := dets.zip (matchBoxesToSessions st.active_sessions dets) with hpairs
  set acc0 : FrameAcc :=
    { sessions := st.active_sessions, nextId := st.next_session_id
      seen := [], events := [] } with hacc0
  set acc := processDets cfg now pairs acc0 with hacc
  have hni : ∀ b, (b, some sid) ∉ pairs := by
    intro b hb
    exact hnm (List.of_mem_zip hb).2
  have hlt : sid < acc0.nextId := hbd (sid, s) (alookup_mem hl)
  obtain ⟨hlook, hseeniff, -⟩ := processDets_untouched cfg now pairs acc0 sid hni hlt
  have hlook' : alookup acc.sessions sid = some s := by rw [hlook]; exact hl
  have hseen : sid ∉ acc.seen := by simpa using hseeniff
  obtain ⟨haccnd, haccbd⟩ := processDets_wf cfg now pairs acc0 hnd hbd
  have hkeptnd : ((finalizePass cfg now acc.seen acc.sessions).1.map Prod.fst).Nodup :=
    haccnd.sublist (List.Sublist.map Prod.fst (finalizePass_sublist cfg now _ _))
  have hmemacc : (sid, s) ∈ acc.sessions := alookup_mem hlook'
  refine ⟨?_, ?_, ?_⟩
  · intro hgap
    constructor
    · rw [lifecycleStep_fst_sessions]
      rw [alookup_eq_none]
      intro hk
      obtain ⟨p, hp, hpe⟩ := List.mem_map.1 hk
      have hp' := (finalizePass_mem cfg now acc.seen acc.sessions p).1 hp
      have hpeq : p = (sid, p.2) := by
        rcases p with ⟨k, v⟩
        simp at hpe
        simp [hpe]
      rw [hpeq] at hp'
      have : p.2 = s := by
        have := alookup_of_mem_nodup haccnd hp'.1
        rw [this] at hlook'
        injection hlook'
      rw [this] at hp'
      rcases hp'.2 with hc | hc
      · exact hseen hc
      · exact absurd hc (not_le.2 hgap)
    · rw [lifecycleStep_events]
      refine List.mem_append_right _ ?_
      exact (finalizePass_events cfg now acc.seen acc.sessions _).2
        ⟨(sid, s), hmemacc, hseen, hgap, rfl⟩
  · intro hgap
    constructor
    · rw [lifecycleStep_fst_sessions]
      have hkept : (sid, s) ∈ (finalizePass cfg now acc.seen acc.sessions).1 :=
        (finalizePass_mem cfg now acc.seen acc.sessions _).2 ⟨hmemacc, Or.inr hgap⟩
      exact alookup_of_mem_nodup hkeptnd hkept
    · intro d fl hin
      rw [lifecycleStep_events] at hin
      rcases List.mem_append.1 hin with hin' | hin'
      · rcases processDets_events_origin cfg now pairs acc0 _ hin' with h0 | ⟨sid', b', he⟩
        · simp [hacc0] at h0
        · simp at he
      · obtain ⟨p, hp, -, hpg, hpe⟩ :=
          (finalizePass_events cfg now acc.seen acc.sessions _).1 hin'
        have hpeq : p.1 = sid := by
          injection hpe with h1 h2 h3
          exact h1.symm
        have hp2 : p = (sid, p.2) := by
          rcases p with ⟨k, v⟩
          simp at hpeq
          simp [hpeq]
        rw [hp2] at hp
        have : p.2 = s := by
          have := alookup_of_mem_nodup haccnd hp
          rw [this] at hlook'
          injection hlook'
        rw [this] at hpg
        exact absurd hpg (not_lt.2 hgap)
  · rw [lifecycleStep_seen]
    exact hseen

theorem alertApply_fields (cfg : Config) (s : Session) :
    (alertApply cfg s).accumulated = s.accumulated ∧
    (alertApply cfg s).last_seen_ts = s.last_seen_ts ∧
    (alertApply cfg s).start_ts = s.start_ts ∧
    (alertApply cfg s).box = s.box := by
  unfold alertApply
  split_ifs <;> simp

theorem alertApply_flag_mono (cfg : Config) (s : Session)
    (h : s.alert_sent = true) : (alertApply cfg s).alert_sent = true := by
  unfold alertApply
  split_ifs <;> simp [h]

/-- Looking a session up after the whole frame step sees the lifecycle result
through `alertApply`. -/
theorem detectStep_alookup (cfg : Config) (st : DetectorState) (now : ℚ)
    (dets : List Box) (sid : Nat) :
    alookup (detectStep cfg st now dets).1.active_sessions sid =
      (alookup (lifecycleStep cfg now st dets).1.active_sessions sid).map
        (alertApply cfg) := by
  rw [detectStep_fst_sessions, alertPass_fst, alookup_map_values]

theorem mem_zip_of_mem_list :
    ∀ (l : List Box) (m : List (Option Nat)) (o : Option Nat),
      l.length = m.length → o ∈ m → ∃ b, (b, o) ∈ l.zip m := by
  intro l
  induction l with
  | nil =>
    intro m o hlen hm
    cases m with
    | nil => simp at hm
    | cons _ _ => simp at hlen
  | cons b l ih =>
    intro m o hlen hm
    cases m with
    | nil => simp at hm
    | cons o' m =>
      simp only [List.length_cons, Nat.succ.injEq] at hlen
      rcases List.mem_cons.1 hm with rfl | hm'
      · exact ⟨b, List.mem_cons_self _ _⟩
      · obtain ⟨b', hb'⟩ := ih m o hlen hm'
        exact ⟨b', List.mem_cons_of_mem _ hb'⟩

/-- Origin of a session found open after the lifecycle portion: an untouched
pre-frame session, a matched update of a pre-frame session, or a session
freshly created this frame (with an id at or above the old `next_session_id`). -/
theorem lifecycle_lookup_origin (cfg : Config) (now : ℚ) (st : DetectorState)
    (dets : List Box) (sid : Nat) (s1 : Session) (hwf : WF st)
    (hl1 : alookup (lifecycleStep cfg now st dets).1.active_sessions sid = some s1) :
    (∃ s, alookup st.active_sessions sid = some s ∧
      (s1 = s ∨ ∃ b, (b, some sid) ∈ dets.zip (matchBoxesToSessions st.active_sessions dets) ∧
        s1 = updateMatched cfg now b s)) ∨
    (st.next_session_id ≤ sid ∧ ∃ b, s1 = newSession now b) := by
  obtain ⟨hnd, hbd⟩ := hwf
  by_cases hmm : some sid ∈ matchBoxesToSessions st.active_sessions dets
  · obtain ⟨b, hb⟩ := mem_zip_of_mem_list dets _ (some sid)
      (matchAux_length st.active_sessions dets []).symm hmm
    have hkey : sid ∈ st.active_sessions.map Prod.fst :=
      mapping_mem_keys st.active_sessions dets hmm
    obtain ⟨p, hp, hpe⟩ := List.mem_map.1 hkey
    have hp' : p = (sid, p.2) := by
      rcases p with ⟨k, v⟩
      simp at hpe
      simp [hpe]
    rw [hp'] at hp
    have hl : alookup st.active_sessions sid = some p.2 := alookup_of_mem_nodup hnd hp
    obtain ⟨hlook, -, -⟩ := lifecycle_matched cfg now st dets b sid p.2 ⟨hnd, hbd⟩ hb hl
    rw [hlook] at hl1
    injection hl1 with hl1
    exact Or.inl ⟨p.2, hl, Or.inr ⟨b, hb, hl1.symm⟩⟩
  · rcases hst : alookup st.active_sessions sid with _ | s
    · -- absent before the frame
      rcases Nat.lt_or_ge sid st.next_session_id with hlt | hge
      · -- small id, absent, unmatched: it cannot reappear
        set acc0 : FrameAcc :=
          { sessions := st.active_sessions, nextId := st.next_session_id
            seen := [], events := [] } with hacc0
        have hni : ∀ b, (b, some sid) ∉
            dets.zip (matchBoxesToSessions st.active_sessions dets) := by
          intro b hb
          exact hmm (List.of_mem_zip hb).2
        obtain ⟨hlook, -, -⟩ := processDets_untouched cfg now _ acc0 sid hni hlt
        obtain ⟨haccnd, -⟩ := processDets_wf cfg now
          (dets.zip (matchBoxesToSessions st.active_sessions dets)) acc0 hnd hbd
        rw [lifecycleStep_fst_sessions] at hl1
        have hmemkept := alookup_mem hl1
        have hmemacc := (finalizePass_mem cfg now _ _ _).1 hmemkept
        have := alookup_of_mem_nodup haccnd hmemacc.1
        rw [hlook] at this
        rw [hst] at this
        exact absurd this (by simp)
      · -- large id: some detection created it this frame
        set acc0 : FrameAcc :=
          { sessions := st.active_sessions, nextId := st.next_session_id
            seen := [], events := [] } with hacc0
        have hni : ∀ b, (b, some sid) ∉
            dets.zip (matchBoxesToSessions st.active_sessions dets) := by
          intro b hb
          exact hmm (List.of_mem_zip hb).2
        obtain ⟨haccnd, -⟩ := processDets_wf cfg now
          (dets.zip (matchBoxesToSessions st.active_sessions dets)) acc0 hnd hbd
        rw [lifecycleStep_fst_sessions] at hl1
        have hmemkept := alookup_mem hl1
        have hmemacc := (finalizePass_mem cfg now _ _ _).1 hmemkept
        have hacclook := alookup_of_mem_nodup haccnd hmemacc.1
        obtain ⟨b, hb⟩ := processDets_fresh cfg now _ acc0 sid s1 hbd hni hge hacclook
        exact Or.inr ⟨hge, b, hb⟩
    · -- present before the frame, unmatched
      obtain ⟨hbeyond, hwithin, -⟩ :=
        lifecycle_unmatched cfg now st dets sid s ⟨hnd, hbd⟩ hst hmm
      by_cases hgap : now - s.last_seen_ts ≤ cfg.gap_tolerance_sec
      · obtain ⟨hkeep, -⟩ := hwithin hgap
        rw [hkeep] at hl1
        have hs1 : s1 = s := by
          injection hl1 with h2
          exact h2.symm
        exact Or.inl ⟨s, rfl, Or.inl hs1⟩
      · obtain ⟨hgone, -⟩ := hbeyond (not_le.1 hgap)
        rw [hgone] at hl1
        exact absurd hl1 (by simp)

/-- Time bounds on every open session survive one frame step taken at a time
`now` no earlier than every stored `last_seen_ts`. -/
theorem detectStep_timeBound (cfg : Config) (st : DetectorState) (now : ℚ)
    (dets : List Box)
    (h : ∀ p ∈ st.active_sessions,
      0 ≤ p.2.accumulated ∧ p.2.accumulated ≤ p.2.last_seen_ts - p.2.start_ts ∧
        p.2.last_seen_ts ≤ now) :
    ∀ p ∈ (detectStep cfg st now dets).1.active_sessions,
      0 ≤ p.2.accumulated ∧ p.2.accumulated ≤ p.2.last_seen_ts - p.2.start_ts ∧
        p.2.last_seen_ts ≤ now := by
  have hlc : ∀ p ∈ (lifecycleStep cfg now st dets).1.active_sessions,
      0 ≤ p.2.accumulated ∧ p.2.accumulated ≤ p.2.last_seen_ts - p.2.start_ts ∧
        p.2.last_seen_ts ≤ now := by
    intro p hp
    rw [lifecycleStep_fst_sessions] at hp
    have hpacc := (finalizePass_sublist cfg now _ _).mem hp
    refine processDets_preserve cfg now
      (fun s => 0 ≤ s.accumulated ∧ s.accumulated ≤ s.last_seen_ts - s.start_ts ∧
        s.last_seen_ts ≤ now) ?_ ?_ _ _ h p hpacc
    · intro b s hq
      obtain ⟨q1, q2, q3⟩ := hq
      simp only [updateMatched]
      by_cases hgap : now - s.last_seen_ts ≤ cfg.gap_tolerance_sec
      · simp only [if_pos hgap]
        exact ⟨by linarith, by linarith, le_refl _⟩
      · simp only [if_neg hgap]
        exact ⟨q1, by linarith, le_refl _⟩
    · intro b
      simp [newSession]
  intro p hp
  rw [detectStep_fst_sessions, alertPass_fst] at hp
  obtain ⟨q, hq, hqe⟩ := List.mem_map.1 hp
  obtain ⟨q1, q2, q3⟩ := hlc q hq
  obtain ⟨f1, f2, f3, -⟩ := alertApply_fields cfg q.2
  rw [← hqe]
  exact ⟨by rw [f1]; exact q1, by rw [f1, f2, f3]; exact q2, by rw [f2]; exact q3⟩

/-- Along any trace, every open session satisfies the time bounds at the
trace's current time. -/
theorem traces_timeBound {cfg : Config} {t : ℚ} {st : DetectorState}
    {evs : List Event} (h : Traces cfg t st evs) :
    ∀ p ∈ st.active_sessions,
      0 ≤ p.2.accumulated ∧ p.2.accumulated ≤ p.2.last_seen_ts - p.2.start_ts ∧
        p.2.last_seen_ts ≤ t := by
  induction h with
  | init t => simp [initState]
  | step now dets htr hle ih =>
    refine detectStep_timeBound _ _ _ _ ?_
    intro p hp
    obtain ⟨a, b, c⟩ := ih p hp
    exact ⟨a, b, le_trans c hle⟩

/-- The lifecycle portion writes no `alert_triggered` line. -/
theorem lifecycle_alertCount (cfg : Config) (now : ℚ) (st : DetectorState)
    (dets : List Box) (sid : Nat) :
    alertCount sid (lifecycleStep cfg now st dets).2.2 = 0 := by
  rw [alertCount_eq_zero]
  intro d hd
  rw [lifecycleStep_events] at hd
  rcases List.mem_append.1 hd with hd' | hd'
  · rcases processDets_events_origin cfg now _ _ _ hd' with h0 | ⟨sid', b', he⟩
    · simp at h0
    · simp at he
  · obtain ⟨p, -, -, -, hpe⟩ := (finalizePass_events cfg now _ _ _).1 hd'
    simp at hpe

theorem detectStep_nextId_mono (cfg : Config) (st : DetectorState) (now : ℚ)
    (dets : List Box) :
    st.next_session_id ≤ (detectStep cfg st now dets).1.next_session_id := by
  rw [detectStep_fst_nextId, lifecycleStep_fst_nextId]
  exact processDets_nextId_le cfg now
    (dets.zip (matchBoxesToSessions st.active_sessions dets))
    { sessions := st.active_sessions, nextId := st.next_session_id
      seen := [], events := [] }

/-- Alert-count invariant along any trace: at most one alert per id, none for
an id that is open with an unset flag, none for ids not yet handed out. -/
theorem traces_alertInv {cfg : Config} {t : ℚ} {st : DetectorState}
    {evs : List Event} (h : Traces cfg t st evs) (sid : Nat) :
    alertCount sid evs ≤ 1 ∧
    (∀ s, alookup st.active_sessions sid = some s → s.alert_sent = false →
      alertCount sid evs = 0) ∧
    (st.next_session_id ≤ sid → alertCount sid evs = 0) := by
  induction h with
  | init t => simp [alertCount, initState]
  | step now dets htr hle ih =>
    rename_i t' st' evs'
    obtain ⟨ih1, ih2, ih3⟩ := ih
    have hwf := traces_wf htr
    have hwflc := lifecycleStep_wf cfg now st' dets hwf
    have hstep : (detectStep cfg st' now dets).2 =
        (lifecycleStep cfg now st' dets).2.2 ++
          (alertPass cfg (lifecycleStep cfg now st' dets).1.active_sessions).2 :=
      detectStep_events cfg st' now dets
    have hcnt : alertCount sid (evs' ++ (detectStep cfg st' now dets).2) =
        alertCount sid evs' +
          alertCount sid
            (alertPass cfg (lifecycleStep cfg now st' dets).1.active_sessions).2 := by
      rw [hstep, alertCount_append, alertCount_append,
        lifecycle_alertCount cfg now st' dets sid]
      omega
    have halert := alertPass_alertCount cfg
      (lifecycleStep cfg now st' dets).1.active_sessions sid hwflc.1
    -- fate of the id after the whole step
    have hnext := detectStep_nextId_mono cfg st' now dets
    rcases hlc : alookup (lifecycleStep cfg now st' dets).1.active_sessions sid with _ | s1
    · -- not open after lifecycle: no alert this frame
      have halert0 : alertCount sid
          (alertPass cfg (lifecycleStep cfg now st' dets).1.active_sessions).2 = 0 := by
        rw [halert, hlc]
      refine ⟨?_, ?_, ?_⟩
      · rw [hcnt, halert0]
        simpa using ih1
      · intro s hs hflag
        rw [detectStep_alookup, hlc] at hs
        simp at hs
      · intro hge
        rw [hcnt, halert0]
        have : st'.next_session_id ≤ sid := le_trans hnext hge
        rw [ih3 this]
    · have halert1 : alertCount sid
          (alertPass cfg (lifecycleStep cfg now st' dets).1.active_sessions).2 =
          (if s1.alert_sent = false ∧ cfg.alert_threshold_sec ≤ s1.accumulated
            then 1 else 0) := by
        rw [halert, hlc]
      have horigin := lifecycle_lookup_origin cfg now st' dets sid s1 hwf hlc
      have hprev : s1.alert_sent = false → alertCount sid evs' = 0 := by
        intro hflag
        rcases horigin with ⟨s0, hs0, hcase⟩ | ⟨hge, b, hb⟩
        · have hflag0 : s0.alert_sent = false := by
            rcases hcase with rfl | ⟨b, -, rfl⟩
            · exact hflag
            · simpa [updateMatched] using hflag
          exact ih2 s0 hs0 hflag0
        · exact ih3 hge
      by_cases hc : s1.alert_sent = false ∧ cfg.alert_threshold_sec ≤ s1.accumulated
      · rw [if_pos hc] at halert1
        have h0 := hprev hc.1
        refine ⟨?_, ?_, ?_⟩
        · rw [hcnt, halert1, h0]
        · intro s hs hflag
          rw [detectStep_alookup, hlc] at hs
          have hs' : alertApply cfg s1 = s := by
            injection hs
          rw [← hs'] at hflag
          rw [alertApply, if_pos hc] at hflag
          simp at hflag
        · intro hge
          have hge' : st'.next_session_id ≤ sid := le_trans hnext hge
          have := ih3 hge'
          -- but sid is open after lifecycle, its id is below the new next id
          have hbound := (lifecycleStep_wf cfg now st' dets hwf).2
            (sid, s1) (alookup_mem hlc)
          rw [detectStep_fst_nextId] at hge
          omega
      · rw [if_neg hc] at halert1
        refine ⟨?_, ?_, ?_⟩
        · rw [hcnt, halert1]
          simpa using ih1
        · intro s hs hflag
          rw [detectStep_alookup, hlc] at hs
          have hs' : alertApply cfg s1 = s := by
            injection hs
          rw [hcnt, halert1]
          have hflag1 : s1.alert_sent = false := by
            rw [← hs'] at hflag
            rw [alertApply] at hflag
            split_ifs at hflag with hsp
            exact hflag
          rw [hprev hflag1]
        · intro hge
          have hbound := (lifecycleStep_wf cfg now st' dets hwf).2
            (sid, s1) (alookup_mem hlc)
          rw [detectStep_fst_nextId] at hge
          omega

theorem startIds_append (l1 l2 : List Event) :
    startIds (l1 ++ l2) = startIds l1 ++ startIds l2 := by
  simp [startIds]

theorem startIds_no_starts {l : List Event}
    (h : ∀ e ∈ l, ∀ sid b, e ≠ Event.usage_start sid b) : startIds l = [] := by
  rw [startIds, List.filterMap_eq_nil]
  intro e he
  rcases e with ⟨sid, b⟩ | ⟨sid, d, fl⟩ | ⟨sid, d⟩
  · exact absurd rfl (h _ he sid b)
  · rfl
  · rfl

/-- One frame's `usage_start` ids are strictly increasing and lie between the
old and new `next_session_id`. -/
theorem detectStep_startIds (cfg : Config) (st : DetectorState) (now : ℚ)
    (dets : List Box) :
    (startIds (detectStep cfg st now dets).2).Pairwise (· < ·) ∧
    ∀ x ∈ startIds (detectStep cfg st now dets).2,
      st.next_session_id ≤ x ∧ x < (detectStep cfg st now dets).1.next_session_id := by
  set acc0 : FrameAcc :=
    { sessions := st.active_sessions, nextId := st.next_session_id
      seen := [], events := [] } with hacc0
  set pairs := dets.zip (matchBoxesToSessions st.active_sessions dets) with hpairs
  have hfin : startIds
      (finalizePass cfg now (processDets cfg now pairs acc0).seen
        (processDets cfg now pairs acc0).sessions).2 = [] := by
    refine startIds_no_starts ?_
    intro e he sid b hne
    obtain ⟨p, -, -, -, hpe⟩ := (finalizePass_events cfg now _ _ _).1 he
    rw [hne] at hpe
    simp at hpe
  have halert : startIds
      (alertPass cfg (lifecycleStep cfg now st dets).1.active_sessions).2 = [] := by
    refine startIds_no_starts ?_
    intro e he sid b hne
    obtain ⟨p, -, -, -, hpe⟩ :=
      (alertPass_events cfg (lifecycleStep cfg now st dets).1.active_sessions _).1 he
    rw [hne] at hpe
    simp at hpe
  obtain ⟨fresh, hf1, hf2, hf3⟩ := processDets_startIds cfg now pairs acc0
  have hstart0 : startIds acc0.events = [] := by simp [hacc0, startIds]
  have hsteps : startIds (detectStep cfg st now dets).2 = fresh := by
    rw [detectStep_events, startIds_append, halert, lifecycleStep_events,
      startIds_append]
    rw [hstart0] at hf1
    simp only [List.nil_append] at hf1
    rw [hf1, hfin]
    simp
  rw [hsteps]
  refine ⟨hf2, ?_⟩
  intro x hx
  obtain ⟨hx1, hx2⟩ := hf3 x hx
  refine ⟨hx1, ?_⟩
  rw [detectStep_fst_nextId, lifecycleStep_fst_nextId]
  exact hx2

/-- Along any trace, the `usage_start` ids are strictly increasing and all
below the current `next_session_id`. -/
theorem traces_startIds {cfg : Config} {t : ℚ} {st : DetectorState}
    {evs : List Event} (h : Traces cfg t st evs) :
    (startIds evs).Pairwise (· < ·) ∧ ∀ x ∈ startIds evs, x < st.next_session_id := by
  induction h with
  | init t => exact ⟨by simp [startIds], by simp [startIds]⟩
  | step now dets htr hle ih =>
    rename_i t' st' evs'
    obtain ⟨ih1, ih2⟩ := ih
    obtain ⟨s1, s2⟩ := detectStep_startIds cfg st' now dets
    rw [startIds_append]
    constructor
    · rw [List.pairwise_append]
      exact ⟨ih1, s1, fun a ha b hb => lt_of_lt_of_le (ih2 a ha) (s2 b hb).1⟩
    · intro x hx
      rcases List.mem_append.1 hx with hx' | hx'
      · exact lt_of_lt_of_le (ih2 x hx') (detectStep_nextId_mono cfg st' now dets)
      · exact (s2 x hx').2

/-! ## Claim theorems -/

/-- C1: per frame-processing step with current time `now`, within the
lifecycle update of `detect` (the alert monitor runs afterwards): a session
matched by a detection gets that detection's box, accrues the gap
`now - last_seen_ts` if and only if the gap is at most `gap_tolerance_sec`
(a gap exactly equal to the tolerance is counted), has `last_seen_ts` set to
`now` unconditionally, and is never finalized this frame; every open session
not matched this frame is finalized — a `usage_end` with its accumulated
duration (truncated to an integer, as the code logs it) and alert flag is
emitted and the session removed — if and only if its gap strictly exceeds
the tolerance, and is otherwise left entirely unchanged with no accrual. -/
theorem c1_session_lifecycle_per_frame (cfg : Config) (st : DetectorState)
    (now : ℚ) (dets : List Box) (hwf : WF st) :
    (∀ b sid s,
      (b, some sid) ∈ dets.zip (matchBoxesToSessions st.active_sessions dets) →
      alookup st.active_sessions sid = some s →
      ∃ s', alookup (lifecycleStep cfg now st dets).1.active_sessions sid = some s' ∧
        s'.box = b ∧ s'.last_seen_ts = now ∧ s'.start_ts = s.start_ts ∧
        s'.alert_sent = s.alert_sent ∧
        (now - s.last_seen_ts ≤ cfg.gap_tolerance_sec →
          s'.accumulated = s.accumulated + (now - s.last_seen_ts)) ∧
        (¬ now - s.last_seen_ts ≤ cfg.gap_tolerance_sec →
          s'.accumulated = s.accumulated) ∧
        ∀ d fl, Event.usage_end sid d fl ∉ (lifecycleStep cfg now st dets).2.2) ∧
    (∀ sid s, alookup st.active_sessions sid = some s →
      some sid ∉ matchBoxesToSessions st.active_sessions dets →
      (now - s.last_seen_ts > cfg.gap_tolerance_sec →
        alookup (lifecycleStep cfg now st dets).1.active_sessions sid = none ∧
        Event.usage_end sid (pyInt s.accumulated) s.alert_sent ∈
          (lifecycleStep cfg now st dets).2.2) ∧
      (now - s.last_seen_ts ≤ cfg.gap_tolerance_sec →
        alookup (lifecycleStep cfg now st dets).1.active_sessions sid = some s ∧
        ∀ d fl, Event.usage_end sid d fl ∉ (lifecycleStep cfg now st dets).2.2)) := by
  constructor
  · intro b sid s hmem hl
    obtain ⟨hlook, -, hnoend⟩ := lifecycle_matched cfg now st dets b sid s hwf hmem hl
    refine ⟨updateMatched cfg now b s, hlook, rfl, rfl, rfl, rfl, ?_, ?_, hnoend⟩
    · intro hgap
      simp only [updateMatched, if_pos hgap]
    · intro hgap
      simp only [updateMatched, if_neg hgap]
  · intro sid s hl hnm
    obtain ⟨hbeyond, hwithin, -⟩ := lifecycle_unmatched cfg now st dets sid s hwf hl hnm
    exact ⟨hbeyond, hwithin⟩

/-- Witness for C1 at a concrete input: one open session matched by an
identical detection at `now = 1/20`, gap `1/20 ≤ 1/10`, so the box is kept,
the gap is accrued, `last_seen_ts` becomes `1/20`, and no `usage_end` is
logged for it. -/
theorem c1_witness :
    ∃ s', alookup (lifecycleStep defaultConfig (1 / 20)
        { active_sessions :=
            [(1, { box := ⟨0, 0, 10, 10⟩, start_ts := 0, last_seen_ts := 0
                   accumulated := 0, alert_sent := false })]
          next_session_id := 2 }
        [⟨0, 0, 10, 10⟩]).1.active_sessions 1 = some s' ∧
      s'.box = ⟨0, 0, 10, 10⟩ ∧ s'.last_seen_ts = 1 / 20 ∧
      s'.accumulated = 0 + (1 / 20 - 0) := by
  have hmap : matchBoxesToSessions
      [(1, { box := ⟨0, 0, 10, 10⟩, start_ts := 0, last_seen_ts := 0
             accumulated := 0, alert_sent := false })] [⟨0, 0, 10, 10⟩] = [some 1] := by
    norm_num [matchBoxesToSessions, matchBoxesAux, bestMatch, matchStep, iou,
      size_change, center_dist_sq, box_center, box_area, max_def, min_def]
  have h := (c1_session_lifecycle_per_frame defaultConfig
      { active_sessions :=
          [(1, { box := ⟨0, 0, 10, 10⟩, start_ts := 0, last_seen_ts := 0
                 accumulated := 0, alert_sent := false })]
        next_session_id := 2 } (1 / 20) [⟨0, 0, 10, 10⟩]
      (by constructor <;> simp [WF])).1
    ⟨0, 0, 10, 10⟩ 1
    { box := ⟨0, 0, 10, 10⟩, start_ts := 0, last_seen_ts := 0
      accumulated := 0, alert_sent := false }
    (by rw [hmap]; simp) rfl
  obtain ⟨s', hlook, hbox, hseen, -, -, hacc, -, -⟩ := h
  refine ⟨s', hlook, hbox, hseen, ?_⟩
  rw [hacc (by norm_num [defaultConfig])]

/-- C2: along any sequence of frame-processing steps driven by a
non-decreasing time source, every session's accumulated duration starts at
`0` when the session is created, never decreases from one step to the next,
and at every step is at most the wall-clock time elapsed since the session's
start timestamp. -/
theorem c2_accumulated_monotone_bounded (cfg : Config) :
    (∀ t st evs, Traces cfg t st evs →
      ∀ p ∈ st.active_sessions,
        0 ≤ p.2.accumulated ∧ p.2.accumulated ≤ t - p.2.start_ts) ∧
    (∀ t st evs now dets sid s', Traces cfg t st evs → t ≤ now →
      alookup st.active_sessions sid = none →
      alookup (detectStep cfg st now dets).1.active_sessions sid = some s' →
      s'.accumulated = 0 ∧ s'.start_ts = now) ∧
    (∀ t st evs now dets sid s s', Traces cfg t st evs → t ≤ now →
      alookup st.active_sessions sid = some s →
      alookup (detectStep cfg st now dets).1.active_sessions sid = some s' →
      s.accumulated ≤ s'.accumulated) := by
  refine ⟨?_, ?_, ?_⟩
  · intro t st evs htr p hp
    obtain ⟨h1, h2, h3⟩ := traces_timeBound htr p hp
    exact ⟨h1, by linarith⟩
  · intro t st evs now dets sid s' htr hle hnone hl'
    rw [detectStep_alookup] at hl'
    rcases hlc : alookup (lifecycleStep cfg now st dets).1.active_sessions sid with _ | s1
    · rw [hlc] at hl'
      simp at hl'
    · rw [hlc] at hl'
      have hs' : alertApply cfg s1 = s' := by injection hl'
      rcases lifecycle_lookup_origin cfg now st dets sid s1 (traces_wf htr) hlc with
        ⟨s0, hs0, -⟩ | ⟨-, b, hb⟩
      · rw [hnone] at hs0
        exact absurd hs0 (by simp)
      · obtain ⟨f1, -, f3, -⟩ := alertApply_fields cfg s1
        rw [← hs', f1, f3, hb]
        exact ⟨rfl, rfl⟩
  · intro t st evs now dets sid s s' htr hle hl hl'
    rw [detectStep_alookup] at hl'
    rcases hlc : alookup (lifecycleStep cfg now st dets).1.active_sessions sid with _ | s1
    · rw [hlc] at hl'
      simp at hl'
    · rw [hlc] at hl'
      have hs' : alertApply cfg s1 = s' := by injection hl'
      obtain ⟨f1, -, -, -⟩ := alertApply_fields cfg s1
      have hacc : s.accumulated ≤ s1.accumulated := by
        rcases lifecycle_lookup_origin cfg now st dets sid s1 (traces_wf htr) hlc with
          ⟨s0, hs0, hcase⟩ | ⟨hge, -, -⟩
        · rw [hl] at hs0
          have hs0' : s0 = s := by
            injection hs0 with h
            exact h.symm
          subst hs0'
          rcases hcase with rfl | ⟨b, -, rfl⟩
          · exact le_refl _
          · obtain ⟨-, -, hlast⟩ := traces_timeBound htr (sid, s0) (alookup_mem hl)
            simp only [updateMatched]
            by_cases hgap : now - s0.last_seen_ts ≤ cfg.gap_tolerance_sec
            · rw [if_pos hgap]
              have : s0.last_seen_ts ≤ now := le_trans hlast hle
              linarith
            · rw [if_neg hgap]
        · have := (traces_wf htr).2 (sid, s) (alookup_mem hl)
          omega
      rw [← hs', f1]
      exact hacc

/-- Witness for C2 at a concrete input: one empty-store step at `t = 0`
creating session 1, which starts with accumulated `0` and `start_ts = 0`. -/
theorem c2_witness :
    ∃ s', alookup (detectStep defaultConfig initState 0
        [⟨0, 0, 10, 10⟩]).1.active_sessions 1 = some s' ∧
      s'.accumulated = 0 ∧ s'.start_ts = 0 := by
  have hlook : alookup (detectStep defaultConfig initState 0
      [⟨0, 0, 10, 10⟩]).1.active_sessions 1 = some (newSession 0 ⟨0, 0, 10, 10⟩) := by
    norm_num [detectStep, lifecycleStep, processDets, processDet, finalizePass, alertPass,
      matchBoxesToSessions, matchBoxesAux, bestMatch, matchStep, newSession, defaultConfig,
      initState, alookup, setEntry]
  obtain ⟨h1, h2⟩ := (c2_accumulated_monotone_bounded defaultConfig).2.1 0 initState []
    0 [⟨0, 0, 10, 10⟩] 1 (newSession 0 ⟨0, 0, 10, 10⟩) (Traces.init 0) (le_refl 0)
    rfl hlook
  exact ⟨newSession 0 ⟨0, 0, 10, 10⟩, hlook, h1, h2⟩

/-- C3: after the lifecycle updates of a frame-processing step, every
still-open session whose alert flag is false and whose accumulated duration
is at least `alert_threshold_sec` (default `900` seconds) gets its flag set
to true and exactly one `alert_triggered` event with its id and (truncated)
duration; over any sequence of steps, at most one `alert_triggered` event is
ever emitted per session id. -/
theorem c3_alert_fires_exactly_once (cfg : Config) :
    defaultConfig.alert_threshold_sec = 900 ∧
    (∀ st now dets sid s, WF st →
      alookup (lifecycleStep cfg now st dets).1.active_sessions sid = some s →
      s.alert_sent = false → cfg.alert_threshold_sec ≤ s.accumulated →
      alookup (detectStep cfg st now dets).1.active_sessions sid =
        some { s with alert_sent := true } ∧
      alertCount sid (detectStep cfg st now dets).2 = 1 ∧
      Event.alert_triggered sid (pyInt s.accumulated) ∈ (detectStep cfg st now dets).2) ∧
    (∀ t st evs sid, Traces cfg t st evs → alertCount sid evs ≤ 1) := by
  refine ⟨by norm_num [defaultConfig], ?_, ?_⟩
  · intro st now dets sid s hwf hlc hflag hthr
    have hwflc := lifecycleStep_wf cfg now st dets hwf
    refine ⟨?_, ?_, ?_⟩
    · rw [detectStep_alookup, hlc]
      simp only [Option.map]
      rw [alertApply, if_pos ⟨hflag, hthr⟩]
    · have halert := alertPass_alertCount cfg
        (lifecycleStep cfg now st dets).1.active_sessions sid hwflc.1
      have h1 : alertCount sid
          (alertPass cfg (lifecycleStep cfg now st dets).1.active_sessions).2 = 1 := by
        rw [halert, hlc]
        exact if_pos ⟨hflag, hthr⟩
      rw [detectStep_events, alertCount_append, lifecycle_alertCount, h1]
    · rw [detectStep_events]
      refine List.mem_append_right _ ?_
      exact (alertPass_events cfg _ _).2 ⟨(sid, s), alookup_mem hlc, hflag, hthr, rfl⟩
  · intro t st evs sid htr
    exact (traces_alertInv htr sid).1

/-- Witness for C3 at a concrete input: a session holding 1000 accumulated
seconds with an unset flag, not detected this frame but within gap tolerance,
fires exactly one alert during the step. -/
theorem c3_witness :
    alertCount 1 (detectStep defaultConfig
      { active_sessions :=
          [(1, { box := ⟨0, 0, 10, 10⟩, start_ts := 0, last_seen_ts := 0
                 accumulated := 1000, alert_sent := false })]
        next_session_id := 2 } (1 / 20) []).2 = 1 := by
  have hlc : alookup (lifecycleStep defaultConfig (1 / 20)
      { active_sessions :=
          [(1, { box := ⟨0, 0, 10, 10⟩, start_ts := 0, last_seen_ts := 0
                 accumulated := 1000, alert_sent := false })]
        next_session_id := 2 } []).1.active_sessions 1 =
      some { box := ⟨0, 0, 10, 10⟩, start_ts := 0, last_seen_ts := 0
             accumulated := 1000, alert_sent := false } := by
    norm_num [lifecycleStep, processDets, finalizePass, matchBoxesToSessions,
      matchBoxesAux, defaultConfig, alookup]
  exact ((c3_alert_fires_exactly_once defaultConfig).2.1
    { active_sessions :=
        [(1, { box := ⟨0, 0, 10, 10⟩, start_ts := 0, last_seen_ts := 0
               accumulated := 1000, alert_sent := false })]
      next_session_id := 2 } (1 / 20) [] 1
    { box := ⟨0, 0, 10, 10⟩, start_ts := 0, last_seen_ts := 0
      accumulated := 1000, alert_sent := false }
    (by constructor <;> simp [WF]) hlc rfl (by norm_num [defaultConfig])).2.1

/-- C7: over any sequence of frame-processing steps, session ids are assigned
(carried by `usage_start` events) in strictly increasing order, and no id is
ever assigned twice — not even after the session bearing it has been
finalized and removed from the store. -/
theorem c7_session_ids_strictly_increasing (cfg : Config) :
    ∀ t st evs, Traces cfg t st evs →
      (startIds evs).Pairwise (· < ·) ∧ (startIds evs).Nodup := by
  intro t st evs htr
  have h := (traces_startIds htr).1
  exact ⟨h, h.imp ne_of_lt⟩

/-- Witness for C7 at a concrete input: a one-frame trace creating two
sessions, whose `usage_start` ids come out strictly increasing and distinct. -/
theorem c7_witness :
    (startIds ([] ++ (detectStep defaultConfig initState 0
      [⟨0, 0, 10, 10⟩, ⟨100, 100, 110, 110⟩]).2)).Pairwise (· < ·) ∧
    (startIds ([] ++ (detectStep defaultConfig initState 0
      [⟨0, 0, 10, 10⟩, ⟨100, 100, 110, 110⟩]).2)).Nodup :=
  c7_session_ids_strictly_increasing defaultConfig 0 _ _
    (Traces.step 0 [⟨0, 0, 10, 10⟩, ⟨100, 100, 110, 110⟩] (Traces.init 0) (le_refl 0))

/-- C4: the association engine processes detections in input order; a
detection's assigned session is one not yet claimed this frame that passes
all three gates — IoU at least `0.30`, relative area change at most `0.40`,
centroid distance at most `80` — and has maximal IoU among the still
unclaimed eligible sessions; a detection with no such session is reported
unmatched (`none`) and receives a fresh session with its `usage_start`. -/
theorem c4_association_gates_and_max_iou (sessions : List (Nat × Session))
    (dets : List Box) :
    (matchBoxesToSessions sessions dets).length = dets.length ∧
    (∀ i d sid, dets[i]? = some d →
      (matchBoxesToSessions sessions dets)[i]? = some (some sid) →
      ¬ ClaimedBefore (matchBoxesToSessions sessions dets) i sid ∧
      ∃ s, (sid, s) ∈ sessions ∧ Eligible d s ∧
        ∀ p ∈ sessions, ¬ ClaimedBefore (matchBoxesToSessions sessions dets) i p.1 →
          Eligible d p.2 → iou d p.2.box ≤ iou d s.box) ∧
    (∀ i d, dets[i]? = some d →
      (matchBoxesToSessions sessions dets)[i]? = some none →
      ∀ p ∈ sessions, ¬ ClaimedBefore (matchBoxesToSessions sessions dets) i p.1 →
        ¬ Eligible d p.2) ∧
    (∀ (cfg : Config) (now : ℚ) (acc : FrameAcc) (b : Box),
      processDet cfg now acc (b, none) =
        { sessions := acc.sessions ++ [(acc.nextId, newSession now b)]
          nextId := acc.nextId + 1
          seen := acc.nextId :: acc.seen
          events := acc.events ++ [Event.usage_start acc.nextId b] }) := by
  refine ⟨matchAux_length sessions dets [], ?_, ?_, ?_⟩
  · intro i d sid hd ho
    obtain ⟨h1, -⟩ := matchAux_spec sessions dets [] i d (some sid) hd ho
    obtain ⟨⟨-, hc⟩, s, hmem, hel, hmax⟩ := h1 sid rfl
    exact ⟨hc, s, hmem, hel, fun p hp hpc hpe => hmax p hp (by simp) hpc hpe⟩
  · intro i d hd ho
    obtain ⟨-, h2⟩ := matchAux_spec sessions dets [] i d none hd ho
    exact fun p hp hpc hpe => h2 rfl p hp (by simp) hpc hpe
  · intro cfg now acc b
    simp only [processDet]

/-- Witness for C4 at a concrete input: a session identical to the single
detection is eligible and selected at index 0. -/
theorem c4_witness :
    ∃ s, (1, s) ∈
        [(1, { box := ⟨0, 0, 10, 10⟩, start_ts := 0, last_seen_ts := 0
               accumulated := 0, alert_sent := (false : Bool) })] ∧
      Eligible ⟨0, 0, 10, 10⟩ s := by
  have hmap : matchBoxesToSessions
      [(1, { box := ⟨0, 0, 10, 10⟩, start_ts := 0, last_seen_ts := 0
             accumulated := 0, alert_sent := false })] [⟨0, 0, 10, 10⟩] = [some 1] := by
    norm_num [matchBoxesToSessions, matchBoxesAux, bestMatch, matchStep, iou,
      size_change, center_dist_sq, box_center, box_area, max_def, min_def]
  obtain ⟨-, s, hmem, hel, -⟩ := (c4_association_gates_and_max_iou
      [(1, { box := ⟨0, 0, 10, 10⟩, start_ts := 0, last_seen_ts := 0
             accumulated := 0, alert_sent := false })] [⟨0, 0, 10, 10⟩]).2.1
    0 ⟨0, 0, 10, 10⟩ 1 rfl (by rw [hmap]; rfl)
  exact ⟨s, hmem, hel⟩

/-- C5: one frame's association result assigns each detection index at most
one session id (one mapping entry per detection), never assigns the same
session id to two detection indices, and only assigns ids of open sessions. -/
theorem c5_association_no_double_claim (sessions : List (Nat × Session))
    (dets : List Box) :
    (matchBoxesToSessions sessions dets).length = dets.length ∧
    (∀ (i j sid : Nat), (matchBoxesToSessions sessions dets)[i]? = some (some sid) →
      (matchBoxesToSessions sessions dets)[j]? = some (some sid) → i = j) ∧
    (∀ sid, some sid ∈ matchBoxesToSessions sessions dets →
      sid ∈ sessions.map Prod.fst) :=
  ⟨matchAux_length sessions dets [], matchAux_inj sessions dets [],
    fun _sid h => mapping_mem_keys sessions dets h⟩

/-- Witness for C5 at a concrete input: the id claimed by the only detection
is a key of the open-session store. -/
theorem c5_witness :
    1 ∈ (((1, { box := ⟨0, 0, 10, 10⟩, start_ts := 0, last_seen_ts := 0
                accumulated := 0, alert_sent := false }) : Nat × Session) ::
          []).map Prod.fst := by
  have hmap : matchBoxesToSessions
      [(1, { box := ⟨0, 0, 10, 10⟩, start_ts := 0, last_seen_ts := 0
             accumulated := 0, alert_sent := false })] [⟨0, 0, 10, 10⟩] = [some 1] := by
    norm_num [matchBoxesToSessions, matchBoxesAux, bestMatch, matchStep, iou,
      size_change, center_dist_sq, box_center, box_area, max_def, min_def]
  exact (c5_association_no_double_claim
      [(1, { box := ⟨0, 0, 10, 10⟩, start_ts := 0, last_seen_ts := 0
             accumulated := 0, alert_sent := false })] [⟨0, 0, 10, 10⟩]).2.2
    1 (by rw [hmap]; simp)

/-- C6 counterexample: two detections both pass the eligibility gate against
the same open session; the second has strictly higher IoU, yet the engine
assigns the session to the first (input order), refuting the claim that the
higher-IoU detection wins. -/
theorem c6_counterexample :
    Eligible ⟨0, 0, 100, 80⟩
      { box := ⟨0, 0, 100, 100⟩, start_ts := 0, last_seen_ts := 0
        accumulated := 0, alert_sent := false } ∧
    Eligible ⟨0, 0, 100, 100⟩
      { box := ⟨0, 0, 100, 100⟩, start_ts := 0, last_seen_ts := 0
        accumulated := 0, alert_sent := false } ∧
    iou ⟨0, 0, 100, 80⟩ (⟨0, 0, 100, 100⟩ : Box) <
      iou ⟨0, 0, 100, 100⟩ (⟨0, 0, 100, 100⟩ : Box) ∧
    matchBoxesToSessions
      [(1, { box := ⟨0, 0, 100, 100⟩, start_ts := 0, last_seen_ts := 0
             accumulated := 0, alert_sent := false })]
      [⟨0, 0, 100, 80⟩, ⟨0, 0, 100, 100⟩] = [some 1, none] := by
  refine ⟨?_, ?_, ?_, ?_⟩ <;>
    norm_num [Eligible, matchBoxesToSessions, matchBoxesAux, bestMatch, matchStep,
      iou, size_change, center_dist_sq, box_center, box_area, max_def, min_def]

/-- C6 (amended): when two detections both pass the eligibility gate against
the same (single) open session, the engine — greedy in input order — assigns
the session to the first detection regardless of IoU; the second is reported
unmatched (`none`), and so starts a new session. -/
theorem c6_amended_first_detection_wins (sid : Nat) (s : Session) (d0 d1 : Box)
    (h0 : Eligible d0 s) (h1 : Eligible d1 s) :
    matchBoxesToSessions [(sid, s)] [d0, d1] = [some sid, none] := by
  have hbm0 : (bestMatch [(sid, s)] [] d0).1 = some sid := by
    rw [bestMatch]
    simp only [List.foldl_cons, List.foldl_nil, matchStep]
    rw [if_neg (by simp), if_neg (not_lt.2 h0.1), if_neg (not_lt.2 h0.2.1),
      if_neg (not_lt.2 h0.2.2),
      if_pos (lt_of_lt_of_le (by norm_num : (0 : ℚ) < 3 / 10) h0.1)]
  have hbm1 : (bestMatch [(sid, s)] [sid] d1).1 = none := by
    rw [bestMatch]
    simp [matchStep]
  rw [matchBoxesToSessions, matchAux_cons_some hbm0, matchAux_cons_none hbm1,
    matchBoxesAux]

/-- Witness for the amended C6 at a concrete input. -/
theorem c6_witness :
    matchBoxesToSessions
      [(1, { box := ⟨0, 0, 100, 100⟩, start_ts := 0, last_seen_ts := 0
             accumulated := 0, alert_sent := false })]
      [⟨0, 0, 100, 80⟩, ⟨0, 0, 100, 100⟩] = [some 1, none] :=
  c6_amended_first_detection_wins 1
    { box := ⟨0, 0, 100, 100⟩, start_ts := 0, last_seen_ts := 0
      accumulated := 0, alert_sent := false }
    ⟨0, 0, 100, 80⟩ ⟨0, 0, 100, 100⟩
    (by norm_num [Eligible, iou, size_change, center_dist_sq, box_center, box_area,
      max_def, min_def])
    (by norm_num [Eligible, iou, size_change, center_dist_sq, box_center, box_area,
      max_def, min_def])

/-! ## Classifier lemmas and claims -/

theorem alookup_putEntry_self {α β : Type} [DecidableEq α]
    (l : List (α × β)) (k : α) (v : β) :
    alookup (putEntry l k v) k = some v := by
  rw [putEntry]
  split_ifs with h
  · rw [alookup_setEntry_self]
    rcases hl : alookup l k with _ | v0
    · rw [hl] at h
      simp at h
    · simp
  · rcases hl : alookup l k with _ | v0
    · rw [alookup_append_right hl]
      simp [alookup]
    · rw [hl] at h
      simp at h

theorem alookup_putEntry_ne {α β : Type} [DecidableEq α]
    (l : List (α × β)) (k k' : α) (v : β) (hne : k' ≠ k) :
    alookup (putEntry l k v) k' = alookup l k' := by
  rw [putEntry]
  split_ifs with h
  · exact alookup_setEntry_ne l v hne
  · rcases hl : alookup l k' with _ | v0
    · rw [alookup_append_right hl]
      simp only [alookup]
      rw [if_neg (fun he => hne he.symm)]
    · rw [alookup_append_left hl]

/-- The record written for a tracked identifier: latch ored with the
instantaneous glare flag, frame counter bumped. -/
theorem classifyStep_tracked (hist : List (Int × TrackMemory)) (tid : Int)
    (m : Measurements) (htid : tid ≠ -1) :
    (classifyStep hist tid m).1 =
      putEntry hist tid
        { glare_seen :=
            ((alookup hist tid).getD { glare_seen := false, frames := 0 }).glare_seen ||
              decide (m.glare_score > 5 / 1000)
          frames :=
            ((alookup hist tid).getD { glare_seen := false, frames := 0 }).frames + 1 } ∧
    (classifyStep hist tid m).2.1 =
      (((alookup hist tid).getD { glare_seen := false, frames := 0 }).glare_seen ||
        decide (m.glare_score > 5 / 1000)) ∧
    (classifyStep hist tid m).2.2 =
      (decide (m.entropy > 11 / 2) && !(classifyStep hist tid m).2.1) := by
  rw [classifyStep, if_pos htid]
  by_cases hs : decide (m.glare_score > 5 / 1000) = true
  · rw [hs]
    simp
  · rw [Bool.not_eq_true] at hs
    rw [hs]
    simp

/-- Behaviour without a persistent identifier. -/
theorem classifyStep_untracked (hist : List (Int × TrackMemory))
    (m : Measurements) :
    (classifyStep hist (-1) m).1 = hist ∧
    (classifyStep hist (-1) m).2.1 = decide (m.glare_score > 5 / 1000) ∧
    (classifyStep hist (-1) m).2.2 =
      (decide (m.entropy > 11 / 2) && !decide (m.glare_score > 5 / 1000)) := by
  rw [classifyStep, if_neg (by simp)]
  exact ⟨rfl, rfl, rfl⟩

/-- One classifier evaluation never clears any identifier's latch. -/
theorem classifyStep_latch_preserved (hist : List (Int × TrackMemory))
    (tid' : Int) (m : Measurements) (tid : Int) (r : TrackMemory)
    (hl : alookup hist tid = some r) (hr : r.glare_seen = true) :
    ∃ r', alookup (classifyStep hist tid' m).1 tid = some r' ∧
      r'.glare_seen = true := by
  by_cases htid' : tid' = -1
  · subst htid'
    rw [(classifyStep_untracked hist m).1]
    exact ⟨r, hl, hr⟩
  · obtain ⟨h1, -, -⟩ := classifyStep_tracked hist tid' m htid'
    rw [h1]
    by_cases he : tid = tid'
    · subst he
      rw [alookup_putEntry_self]
      refine ⟨_, rfl, ?_⟩
      rw [hl]
      simp [hr]
    · rw [alookup_putEntry_ne _ _ _ _ he]
      exact ⟨r, hl, hr⟩

/-- C8: for a tracked identifier, the glare latch is set the first time the
instantaneous glare ratio strictly exceeds `0.005`, is never reset by any
later evaluation (of that or any other identifier), and classification
consults the latch: once latched, every subsequent classification of that
identifier comes out specular/smooth — `is_likely_calculator` is false —
regardless of the current glare score or entropy. -/
theorem c8_glare_latch_monotone :
    (∀ hist tid m, tid ≠ -1 → (5 / 1000 : ℚ) < m.glare_score →
      ∃ r, alookup (classifyStep hist tid m).1 tid = some r ∧ r.glare_seen = true) ∧
    (∀ steps hist tid r, alookup hist tid = some r → r.glare_seen = true →
      ∃ r', alookup (runClassify hist steps) tid = some r' ∧ r'.glare_seen = true) ∧
    (∀ hist tid m r, tid ≠ -1 → alookup hist tid = some r → r.glare_seen = true →
      (classifyStep hist tid m).2.1 = true ∧ (classifyStep hist tid m).2.2 = false) := by
  refine ⟨?_, ?_, ?_⟩
  · intro hist tid m htid hm
    obtain ⟨h1, -, -⟩ := classifyStep_tracked hist tid m htid
    rw [h1, alookup_putEntry_self]
    refine ⟨_, rfl, ?_⟩
    simp [decide_eq_true hm]
  · intro steps
    induction steps with
    | nil => intro hist tid r hl hr; exact ⟨r, hl, hr⟩
    | cons p rest ih =>
      intro hist tid r hl hr
      obtain ⟨r', hl', hr'⟩ := classifyStep_latch_preserved hist p.1 p.2 tid r hl hr
      have hrun : runClassify hist (p :: rest) =
          runClassify (classifyStep hist p.1 p.2).1 rest := by
        rcases p with ⟨tid', m'⟩
        rw [runClassify]
      rw [hrun]
      exact ih (classifyStep hist p.1 p.2).1 tid r' hl' hr'
  · intro hist tid m r htid hl hr
    obtain ⟨-, h2, h3⟩ := classifyStep_tracked hist tid m htid
    have hc : (classifyStep hist tid m).2.1 = true := by
      rw [h2, hl]
      simp [hr]
    refine ⟨hc, ?_⟩
    rw [h3, hc]
    simp

/-- Witness for C8 at a concrete input: identifier 7 latches on glare ratio
`1/50 > 0.005`; at a later evaluation with no glare and entropy `6 > 5.5` the
classification is still specular/smooth (not a calculator). -/
theorem c8_witness :
    (∃ r, alookup (classifyStep [] 7
        { entropy := 3, glare_score := 1 / 50 }).1 7 = some r ∧ r.glare_seen = true) ∧
    (classifyStep [(7, { glare_seen := true, frames := 1 })] 7
      { entropy := 6, glare_score := 0 }).2.2 = false := by
  constructor
  · exact (c8_glare_latch_monotone).1 [] 7 { entropy := 3, glare_score := 1 / 50 }
      (by norm_num) (by norm_num)
  · exact ((c8_glare_latch_monotone).2.2 [(7, { glare_seen := true, frames := 1 })] 7
      { entropy := 6, glare_score := 0 } { glare_seen := true, frames := 1 }
      (by norm_num) rfl rfl).2

/-- C9: the classifier reports matte/textured (`is_likely_calculator`) iff
the region's entropy strictly exceeds `5.5` AND glare has not been confirmed,
where "confirmed" is the latch value after this observation for a tracked
identifier (previous latch or instantaneous ratio strictly above `0.005`) and
just the instantaneous ratio without an identifier; in every other case the
result is specular/smooth.  Both threshold comparisons are strict. -/
theorem c9_matte_iff_entropy_and_no_glare :
    ∀ (hist : List (Int × TrackMemory)) (tid : Int) (m : Measurements),
      ((classifyStep hist tid m).2.2 = true ↔
        ((11 / 2 : ℚ) < m.entropy ∧ (classifyStep hist tid m).2.1 = false)) ∧
      (tid ≠ -1 →
        ((classifyStep hist tid m).2.1 = true ↔
          (((alookup hist tid).getD { glare_seen := false, frames := 0 }).glare_seen = true ∨
            (5 / 1000 : ℚ) < m.glare_score))) ∧
      (tid = -1 →
        ((classifyStep hist tid m).2.1 = true ↔ (5 / 1000 : ℚ) < m.glare_score)) := by
  intro hist tid m
  refine ⟨?_, ?_, ?_⟩
  · by_cases htid : tid = -1
    · subst htid
      obtain ⟨-, h2, h3⟩ := classifyStep_untracked hist m
      rw [h3, h2]
      rcases Classical.em ((11 / 2 : ℚ) < m.entropy) with he | he <;>
        rcases Classical.em ((5 / 1000 : ℚ) < m.glare_score) with hg | hg <;>
          simp [he, hg]
    · obtain ⟨-, h2, h3⟩ := classifyStep_tracked hist tid m htid
      rw [h3]
      constructor
      · intro h
        rw [Bool.and_eq_true] at h
        obtain ⟨ha, hb⟩ := h
        refine ⟨by simpa using of_decide_eq_true ha, ?_⟩
        simpa using hb
      · rintro ⟨ha, hb⟩
        rw [Bool.and_eq_true]
        exact ⟨decide_eq_true (by simpa using ha), by simp [hb]⟩
  · intro htid
    obtain ⟨-, h2, -⟩ := classifyStep_tracked hist tid m htid
    rw [h2]
    rcases hgs : ((alookup hist tid).getD
        { glare_seen := false, frames := 0 }).glare_seen with _ | _ <;>
      rcases Classical.em ((5 / 1000 : ℚ) < m.glare_score) with hg | hg <;>
        simp [hgs, hg]
  · intro htid
    subst htid
    obtain ⟨-, h2, -⟩ := classifyStep_untracked hist m
    rw [h2]
    simp

/-- Witness for C9 at a concrete input: entropy `6 > 5.5` with no glare and
no latch classifies as matte/textured; with a latched identifier it does
not. -/
theorem c9_witness :
    (classifyStep [] 7 { entropy := 6, glare_score := 0 }).2.2 = true := by
  have h := (c9_matte_iff_entropy_and_no_glare [] 7
    { entropy := 6, glare_score := 0 }).1
  rw [h]
  refine ⟨by norm_num, ?_⟩
  have h2 := (c9_matte_iff_entropy_and_no_glare [] 7
    { entropy := 6, glare_score := 0 }).2.1 (by norm_num)
  rcases hb : (classifyStep [] 7 { entropy := 6, glare_score := 0 }).2.1 with _ | _
  · rfl
  · rw [hb] at h2
    rcases h2.1 rfl with hc | hc
    · simp [alookup] at hc
    · norm_num at hc

/-- C10 (evaluating the missing error handling at the failing input): with
the log sink unavailable (`sinkOk = false`), a frame whose lifecycle emits a
`usage_start` does not complete — `detect` propagates the audit-write error —
whereas the same frame with an available sink completes with that event. -/
theorem c10_audit_failure_aborts_frame :
    detectLogged false defaultConfig initState 0 [⟨0, 0, 10, 10⟩] =
      Except.error AuditError.sinkUnavailable ∧
    detectLogged true defaultConfig initState 0 [⟨0, 0, 10, 10⟩] =
      Except.ok ((detectStep defaultConfig initState 0 [⟨0, 0, 10, 10⟩]).1,
        [Event.usage_start 1 ⟨0, 0, 10, 10⟩]) ∧
    (detectStep defaultConfig initState 0 [⟨0, 0, 10, 10⟩]).2 =
      [Event.usage_start 1 ⟨0, 0, 10, 10⟩] := by
  have hev : (detectStep defaultConfig initState 0 [⟨0, 0, 10, 10⟩]).2 =
      [Event.usage_start 1 ⟨0, 0, 10, 10⟩] := by
    norm_num [detectStep, lifecycleStep, processDets, processDet, finalizePass,
      alertPass, matchBoxesToSessions, matchBoxesAux, bestMatch, matchStep,
      newSession, defaultConfig, initState, alookup, setEntry]
  refine ⟨?_, ?_, hev⟩
  · rw [detectLogged, hev]
    rfl
  · rw [detectLogged, hev]
    exact congrArg Except.ok (by rw [← hev])

end PhoneDetection
